import Mathlib

/-!
Model of the Batch Transaction Execution Engine in
`packages/core/src/batch-manager.ts` (class `BatchManager`), together with the
type definitions it uses from `packages/core/src/types.ts`.

External collaborators (the viem `publicClient`/`walletClient`) are modelled by
an `Env` of call-indexed oracles: the n-th `sendTransaction` call receives the
n-th answer of `Env.sendResult`, and likewise for `waitForTransactionReceipt`
and `estimateGas`.  A thrown JavaScript exception is modelled as `Except.error`
carrying the error message.  Every observable interaction (collaborator call,
backoff sleep, progress-record write, observer notification) is recorded in an
event trace returned alongside the result, so temporal claims are statements
about that trace.  TypeScript `bigint` is modelled as `Int`, `number` used as a
nonce or counter as `Nat`.
-/

/-- `BatchTransaction` of batch-manager.ts. -/
structure BatchTransaction where
  id : String
  toAddr : String
  value : Option Int := none
  data : Option String := none
  gasLimit : Option Int := none
  description : Option String := none
deriving Repr, DecidableEq

/-- `Omit<BatchTransaction, 'id'>`: the caller-supplied intent before
`createBatch` assigns ids. -/
structure BatchTransactionInput where
  toAddr : String
  value : Option Int := none
  data : Option String := none
  gasLimit : Option Int := none
  description : Option String := none
deriving Repr, DecidableEq

/-- Receipt status of `TransactionReceipt` in types.ts ('success' | 'reverted'). -/
inductive ReceiptStatus where
  | success
  | reverted
deriving Repr, DecidableEq

/-- `TransactionReceipt` of types.ts; also used as the shape returned by the
collaborator's `waitForTransactionReceipt`.  The source field `from` is a Lean
keyword and is rendered `fromAddr`. -/
structure TransactionReceipt where
  transactionHash : String
  blockNumber : Int
  blockHash : String
  fromAddr : String
  toAddr : Option String
  contractAddress : Option String
  status : ReceiptStatus
  gasUsed : Int
  effectiveGasPrice : Int
deriving Repr, DecidableEq

/-- Per-transaction outcome status in `BatchResult.transactions`
('success' | 'failed' | 'pending'). -/
inductive OutcomeStatus where
  | success
  | failed
  | pending
deriving Repr, DecidableEq

/-- One element of `BatchResult.transactions`. -/
structure TxOutcome where
  id : String
  status : OutcomeStatus
  receipt : Option TransactionReceipt := none
  error : Option String := none
  retries : Option Nat := none
deriving Repr, DecidableEq

/-- `BatchProgress.status` ('pending' | 'executing' | 'completed' | 'failed'). -/
inductive BatchStatus where
  | pending
  | executing
  | completed
  | failed
deriving Repr, DecidableEq

/-- `BatchProgress` of batch-manager.ts. -/
structure BatchProgress where
  total : Nat
  completed : Nat
  failed : Nat
  pending : Nat
  currentTransaction : Option String := none
  status : BatchStatus
deriving Repr, DecidableEq

/-- `BatchResult` of batch-manager.ts.  `executionTime` is wall-clock elapsed
time (`Date.now()` differences), modelled as `0`. -/
structure BatchResult where
  batchId : String
  success : Bool
  transactions : List TxOutcome
  totalGasUsed : Int
  totalCost : Int
  executionTime : Nat
deriving Repr, DecidableEq

/-- The argument object of `walletClient.sendTransaction` as built by
batch-manager.ts (the constant `chain` field is omitted). -/
structure SendCall where
  toAddr : String
  value : Option Int
  data : Option String
  nonce : Nat
  gas : Option Int
  account : String
deriving Repr, DecidableEq

/-- `BatchConfig` of batch-manager.ts.  `onProgress` is a callback in the
source; the model records whether one is configured and logs each invocation
(with the record passed) in the trace. -/
structure BatchConfig where
  atomic : Option Bool := none
  delayMs : Option Nat := none
  maxRetries : Option Nat := none
  onProgress : Bool := false
deriving Repr, DecidableEq

/-- Oracles for the external collaborators, indexed by how many calls of that
kind happened before. -/
structure Env where
  address : String
  startingNonce : Nat
  sendResult : Nat → SendCall → Except String String
  receiptResult : Nat → String → Except String TransactionReceipt
  estimateGasResult : Nat → Int
  gasPrice : Int

/-- Trace events: collaborator calls, sleeps, progress-record writes and
observer notifications, in program order. -/
inductive Event where
  | getTransactionCount (nonce : Nat)
  | sendTransaction (call : SendCall) (result : Except String String)
  | waitForReceipt (hash : String) (result : Except String TransactionReceipt)
  | estimateGas (gas : Int)
  | getGasPrice (price : Int)
  | sleep (ms : Nat)
  | progressSet (p : BatchProgress)
  | notify (p : BatchProgress)
deriving Repr

/-- Mutable state threaded through a run: the `activeBatches` entry for the one
batch under study, plus the collaborator call counters that index the `Env`
oracles. -/
structure RunState where
  activeBatch : Option BatchProgress
  sendCount : Nat
  waitCount : Nat
  estimateCount : Nat
deriving Repr

/-- Fresh state: no batch registered, no collaborator calls yet. -/
def initState : RunState :=
  { activeBatch := none, sendCount := 0, waitCount := 0, estimateCount := 0 }

/-- `Partial<BatchProgress>`: the update object passed to `updateProgress`.
`currentTransaction := some none` models an explicitly-present key whose value
is `undefined` (JS object spread overrides with it). -/
structure ProgressUpdate where
  total : Option Nat := none
  completed : Option Nat := none
  failed : Option Nat := none
  pending : Option Nat := none
  currentTransaction : Option (Option String) := none
  status : Option BatchStatus := none

/-- JS object spread `{ ...current, ...updates }`. -/
def applyUpdate (current : BatchProgress) (updates : ProgressUpdate) : BatchProgress :=
  { total := updates.total.getD current.total
    completed := updates.completed.getD current.completed
    failed := updates.failed.getD current.failed
    pending := updates.pending.getD current.pending
    currentTransaction := updates.currentTransaction.getD current.currentTransaction
    status := updates.status.getD current.status }

/-- `updateProgress`: read the entry, merge, store back; no-op when the batch
has no entry (the source's `if (current)` guard).  The stored record is
observable through `getBatchProgress`, hence logged. -/
def updateProgress (updates : ProgressUpdate) (s : RunState) : RunState × List Event :=
  match s.activeBatch with
  | some current =>
      let p := applyUpdate current updates
      ({ s with activeBatch := some p }, [Event.progressSet p])
  | none => (s, [])

/-- The `config.onProgress(this.activeBatches.get(batchId)!)` call sites: when
an observer is configured, it is invoked with the current record.  (With no
entry present the source would dereference `undefined`; that situation cannot
arise in a run that starts with `createBatch`, and the model skips the call.) -/
def notifyIf (cfg : BatchConfig) (s : RunState) : RunState × List Event :=
  if cfg.onProgress then
    match s.activeBatch with
    | some p => (s, [Event.notify p])
    | none => (s, [])
  else (s, [])

/-- JS `x || null` on a nullable string (`receipt.to || null`): the empty
string is falsy and coerced to `null`. -/
def orNull : Option String → Option String
  | some str => if str = "" then none else some str
  | none => none

/-- `createBatch`'s id assignment: intent at position `i` gets id
`batchId-i`. -/
def assignIds (batchId : String) : Nat → List BatchTransactionInput → List BatchTransaction
  | _, [] => []
  | i, tx :: rest =>
      { id := batchId ++ "-" ++ toString i
        toAddr := tx.toAddr
        value := tx.value
        data := tx.data
        gasLimit := tx.gasLimit
        description := tx.description } :: assignIds batchId (i + 1) rest

/-- `createBatch`: assign ids and register the initial progress record.  The
source generates `batchId` from the clock and a random suffix; the model takes
it as a parameter. -/
def createBatch (batchId : String) (transactions : List BatchTransactionInput)
    (s : RunState) : (String × List BatchTransaction) × RunState :=
  let batchTransactions := assignIds batchId 0 transactions
  let p : BatchProgress :=
    { total := batchTransactions.length
      completed := 0
      failed := 0
      pending := batchTransactions.length
      currentTransaction := none
      status := BatchStatus.pending }
  ((batchId, batchTransactions), { s with activeBatch := some p })

/-- `getBatchProgress`. -/
def getBatchProgress (s : RunState) : Option BatchProgress :=
  s.activeBatch

/-- The receipt object copied into an outcome by `executeWithRetry`
(lines 347-357): status recomputed from the viem status, `to` and
`contractAddress` passed through `|| null`. -/
def copyReceipt (receipt : TransactionReceipt) : TransactionReceipt :=
  { transactionHash := receipt.transactionHash
    blockNumber := receipt.blockNumber
    blockHash := receipt.blockHash
    fromAddr := receipt.fromAddr
    toAddr := orNull receipt.toAddr
    contractAddress := orNull receipt.contractAddress
    status := if receipt.status = ReceiptStatus.success
              then ReceiptStatus.success else ReceiptStatus.reverted
    gasUsed := receipt.gasUsed
    effectiveGasPrice := receipt.effectiveGasPrice }

/-- The loop body of `executeWithRetry` (`for attempt = 0..maxRetries`),
written with fuel `maxRetries + 1 - attempt`.  Fuel `0` is loop exit: the
post-loop `return {status:'failed', error: lastError.message,
retries: maxRetries}`.  Each attempt broadcasts at the same `nonce`; a thrown
error (from the broadcast or the receipt wait) is caught, and when
`attempt < maxRetries` the code sleeps `2^attempt * 1000` ms before retrying. -/
def retryLoop (env : Env) (tx : BatchTransaction) (nonce : Nat) (maxRetries : Nat) :
    Nat → Nat → Option String → RunState → TxOutcome × RunState × List Event
  | 0, _, lastError, s =>
      ({ id := tx.id, status := OutcomeStatus.failed, error := lastError,
         retries := some maxRetries }, s, [])
  | fuel + 1, attempt, _lastError, s =>
      let call : SendCall :=
        { toAddr := tx.toAddr, value := tx.value, data := tx.data, nonce := nonce,
          gas := tx.gasLimit, account := env.address }
      let sendRes := env.sendResult s.sendCount call
      let s1 : RunState := { s with sendCount := s.sendCount + 1 }
      match sendRes with
      | Except.error msg =>
          let backoff : List Event :=
            if attempt < maxRetries then [Event.sleep (2 ^ attempt * 1000)] else []
          let rec1 := retryLoop env tx nonce maxRetries fuel (attempt + 1) (some msg) s1
          (rec1.1, rec1.2.1,
           Event.sendTransaction call (Except.error msg) :: (backoff ++ rec1.2.2))
      | Except.ok hash =>
          let waitRes := env.receiptResult s1.waitCount hash
          let s2 : RunState := { s1 with waitCount := s1.waitCount + 1 }
          match waitRes with
          | Except.error msg =>
              let backoff : List Event :=
                if attempt < maxRetries then [Event.sleep (2 ^ attempt * 1000)] else []
              let rec1 := retryLoop env tx nonce maxRetries fuel (attempt + 1) (some msg) s2
              (rec1.1, rec1.2.1,
               Event.sendTransaction call (Except.ok hash)
                 :: Event.waitForReceipt hash (Except.error msg) :: (backoff ++ rec1.2.2))
          | Except.ok receipt =>
              ({ id := tx.id
                 status := if receipt.status = ReceiptStatus.success
                           then OutcomeStatus.success else OutcomeStatus.failed
                 receipt := some (copyReceipt receipt)
                 retries := some attempt }, s2,
               [Event.sendTransaction call (Except.ok hash),
                Event.waitForReceipt hash (Except.ok receipt)])

/-- `executeWithRetry(tx, nonce, maxRetries)`. -/
def executeWithRetry (env : Env) (tx : BatchTransaction) (nonce : Nat)
    (maxRetries : Nat) (s : RunState) : TxOutcome × RunState × List Event :=
  retryLoop env tx nonce maxRetries (maxRetries + 1) 0 none s

/-- Broadcast phase of `executeAtomic` (lines 238-257): per position, set
`currentTransaction`, send at `startNonce + i`, collect the hash; a thrown
broadcast error propagates out. -/
def broadcastPhase (env : Env) (startNonce : Nat) :
    List BatchTransaction → Nat → RunState → Except String (List String) × RunState × List Event
  | [], _, s => (Except.ok [], s, [])
  | tx :: rest, i, s =>
      let up := updateProgress { currentTransaction := some (some tx.id) } s
      let s1 := up.1
      let tp := up.2
      let call : SendCall :=
        { toAddr := tx.toAddr, value := tx.value, data := tx.data, nonce := startNonce + i,
          gas := tx.gasLimit, account := env.address }
      let sendRes := env.sendResult s1.sendCount call
      let s2 : RunState := { s1 with sendCount := s1.sendCount + 1 }
      match sendRes with
      | Except.error msg =>
          (Except.error msg, s2, tp ++ [Event.sendTransaction call (Except.error msg)])
      | Except.ok hash =>
          let rec1 := broadcastPhase env startNonce rest (i + 1) s2
          ((rec1.1).map (hash :: ·), rec1.2.1,
           tp ++ [Event.sendTransaction call (Except.ok hash)] ++ rec1.2.2)

/-- The receipt object pushed by `executeAtomic` (lines 279-289): status
hard-coded `'success'` (a reversion threw before this point). -/
def atomicReceipt (receipt : TransactionReceipt) : TransactionReceipt :=
  { transactionHash := receipt.transactionHash
    blockNumber := receipt.blockNumber
    blockHash := receipt.blockHash
    fromAddr := receipt.fromAddr
    toAddr := orNull receipt.toAddr
    contractAddress := orNull receipt.contractAddress
    status := ReceiptStatus.success
    gasUsed := receipt.gasUsed
    effectiveGasPrice := receipt.effectiveGasPrice }

/-- Receipt phase of `executeAtomic` (lines 260-300): await each receipt in
order; on the first reverted receipt throw the batch-fatal error naming the
transaction; otherwise accumulate gas/cost, push a success outcome, bump the
progress counters and notify the observer. -/
def receiptPhase (env : Env) (cfg : BatchConfig) (n : Nat) :
    List (BatchTransaction × String) → Nat → List TxOutcome → Int → Int → RunState →
    Except String (List TxOutcome × Int × Int) × RunState × List Event
  | [], _, results, gas, cost, s => (Except.ok (results, gas, cost), s, [])
  | (tx, hash) :: rest, i, results, gas, cost, s =>
      let waitRes := env.receiptResult s.waitCount hash
      let s1 : RunState := { s with waitCount := s.waitCount + 1 }
      let te : List Event := [Event.waitForReceipt hash waitRes]
      match waitRes with
      | Except.error msg => (Except.error msg, s1, te)
      | Except.ok receipt =>
          if receipt.status = ReceiptStatus.reverted then
            (Except.error ("Atomic batch failed: Transaction " ++ tx.id ++ " reverted"),
             s1, te)
          else
            let gas1 := gas + receipt.gasUsed
            let cost1 := cost + receipt.gasUsed * receipt.effectiveGasPrice
            let results1 := results ++
              [{ id := tx.id, status := OutcomeStatus.success,
                 receipt := some (atomicReceipt receipt) }]
            let up := updateProgress
              { completed := some (i + 1), pending := some (n - i - 1) } s1
            let nf := notifyIf cfg up.1
            let rec1 := receiptPhase env cfg n rest (i + 1) results1 gas1 cost1 nf.1
            (rec1.1, rec1.2.1, te ++ up.2 ++ nf.2 ++ rec1.2.2)

/-- `executeAtomic` (lines 220-315).  On an error the source also fills a local
all-failed results array, but it rethrows before the caller can read it, so
only the error is observable. -/
def executeAtomic (env : Env) (transactions : List BatchTransaction)
    (startNonce : Nat) (cfg : BatchConfig) (s : RunState) :
    Except String (List TxOutcome × Int × Int) × RunState × List Event :=
  let bc := broadcastPhase env startNonce transactions 0 s
  match bc.1 with
  | Except.error msg => (Except.error msg, bc.2.1, bc.2.2)
  | Except.ok hashes =>
      let rp :=
        receiptPhase env cfg transactions.length (transactions.zip hashes) 0 [] 0 0 bc.2.1
      (rp.1, rp.2.1, bc.2.2 ++ rp.2.2)

/-- The sequential loop of `executeBatch` (lines 148-188): optional delay,
mark the current transaction, run the Retry Controller at nonce `N + i`,
record the outcome, update the counters (the success branch sets
`completed := i + 1` verbatim, the failure branch increments `failed` from the
stored record), then invoke the observer. -/
def sequentialLoop (env : Env) (cfg : BatchConfig) (n : Nat) (nonce : Nat) :
    List BatchTransaction → Nat → List TxOutcome → Int → Int → RunState →
    (List TxOutcome × Int × Int) × RunState × List Event
  | [], _, results, gas, cost, s => ((results, gas, cost), s, [])
  | tx :: rest, i, results, gas, cost, s =>
      let td : List Event :=
        if 0 < i ∧ cfg.delayMs.getD 0 ≠ 0 then [Event.sleep (cfg.delayMs.getD 0)] else []
      let up := updateProgress { currentTransaction := some (some tx.id) } s
      let rt := executeWithRetry env tx (nonce + i) (cfg.maxRetries.getD 0) up.1
      let result := rt.1
      let s2 := rt.2.1
      let results1 := results ++ [result]
      let step : Int × Int × RunState × List Event :=
        match result.status, result.receipt with
        | OutcomeStatus.success, some receipt =>
            let uc := updateProgress
              { completed := some (i + 1), pending := some (n - i - 1) } s2
            (gas + receipt.gasUsed, cost + receipt.gasUsed * receipt.effectiveGasPrice,
             uc.1, uc.2)
        | _, _ =>
            let uc := updateProgress
              { failed := some ((s2.activeBatch.map BatchProgress.failed).getD 0 + 1),
                pending := some (n - i - 1) } s2
            (gas, cost, uc.1, uc.2)
      let nf := notifyIf cfg step.2.2.1
      let rec1 := sequentialLoop env cfg n nonce rest (i + 1) results1 step.1 step.2.1 nf.1
      (rec1.1, rec1.2.1, td ++ up.2 ++ rt.2.2 ++ step.2.2.2 ++ nf.2 ++ rec1.2.2)

/-- `executeBatch(batchId, transactions, config)` (lines 112-215): set
status `executing` (with `currentTransaction: transactions[0]?.id`, an
explicitly-present key), fetch the starting nonce, run the atomic or
sequential path, compute `success = every outcome success`, set the terminal
status, and delete the progress entry (`finally`).  A thrown error is wrapped
as `Batch execution failed: ...` and the entry is still deleted. -/
def executeBatch (env : Env) (batchId : String) (transactions : List BatchTransaction)
    (cfg : BatchConfig) (s : RunState) : Except String BatchResult × RunState × List Event :=
  let u0 := updateProgress
    { status := some BatchStatus.executing
      currentTransaction := some (transactions.head?.map BatchTransaction.id) } s
  let nonce := env.startingNonce
  let tN : List Event := [Event.getTransactionCount nonce]
  let branch : Except String (List TxOutcome × Int × Int) × RunState × List Event :=
    if cfg.atomic.getD false then
      executeAtomic env transactions nonce cfg u0.1
    else
      let sq := sequentialLoop env cfg transactions.length nonce transactions 0 [] 0 0 u0.1
      (Except.ok sq.1, sq.2.1, sq.2.2)
  match branch.1 with
  | Except.ok (results, totalGasUsed, totalCost) =>
      let allSuccess := results.all fun r => decide (r.status = OutcomeStatus.success)
      let u2 := updateProgress
        { status := some (if allSuccess then BatchStatus.completed else BatchStatus.failed) }
        branch.2.1
      (Except.ok
        { batchId := batchId
          success := allSuccess
          transactions := results
          totalGasUsed := totalGasUsed
          totalCost := totalCost
          executionTime := 0 },
       { u2.1 with activeBatch := none }, u0.2 ++ tN ++ branch.2.2 ++ u2.2)
  | Except.error msg =>
      let u2 := updateProgress { status := some BatchStatus.failed } branch.2.1
      (Except.error ("Batch execution failed: " ++ msg),
       { u2.1 with activeBatch := none }, u0.2 ++ tN ++ branch.2.2 ++ u2.2)

/-- The estimation loop of `estimateBatchCost` (lines 397-406): one
`estimateGas` query per intent, summed. -/
def estimateLoop (env : Env) :
    List BatchTransactionInput → Int → RunState → Int × RunState × List Event
  | [], acc, s => (acc, s, [])
  | _tx :: rest, acc, s =>
      let g := env.estimateGasResult s.estimateCount
      let s1 : RunState := { s with estimateCount := s.estimateCount + 1 }
      let rec1 := estimateLoop env rest (acc + g) s1
      (rec1.1, rec1.2.1, Event.estimateGas g :: rec1.2.2)

/-- `estimateBatchCost(transactions)` (lines 388-416): sum the per-intent gas
estimates, query the gas price once, multiply.  The source's
`estimatedCostFormatted` is a floating-point decimal rendering of the same
value and is not modelled. -/
def estimateBatchCost (env : Env) (transactions : List BatchTransactionInput)
    (s : RunState) : (Int × Int) × RunState × List Event :=
  let el := estimateLoop env transactions 0 s
  let gasPrice := env.gasPrice
  let estimatedCost := el.1 * gasPrice
  ((el.1, estimatedCost), el.2.1, el.2.2 ++ [Event.getGasPrice gasPrice])

/-- The send calls recorded in a trace, in order. -/
def sendEvents : List Event → List SendCall
  | [] => []
  | Event.sendTransaction c _ :: rest => c :: sendEvents rest
  | _ :: rest => sendEvents rest

/-- Number of `waitForTransactionReceipt` calls recorded in a trace. -/
def waitCalls : List Event → Nat
  | [] => 0
  | Event.waitForReceipt _ _ :: rest => waitCalls rest + 1
  | _ :: rest => waitCalls rest

/-- Number of `getTransactionCount` calls recorded in a trace. -/
def nonceLookups : List Event → Nat
  | [] => 0
  | Event.getTransactionCount _ :: rest => nonceLookups rest + 1
  | _ :: rest => nonceLookups rest

/-- Number of `estimateGas` calls recorded in a trace. -/
def estimateCalls : List Event → Nat
  | [] => 0
  | Event.estimateGas _ :: rest => estimateCalls rest + 1
  | _ :: rest => estimateCalls rest

/-- Number of `getGasPrice` calls recorded in a trace. -/
def gasPriceCalls : List Event → Nat
  | [] => 0
  | Event.getGasPrice _ :: rest => gasPriceCalls rest + 1
  | _ :: rest => gasPriceCalls rest

/-- The sleep durations (delays and retry backoffs) recorded in a trace. -/
def sleepEvents : List Event → List Nat
  | [] => []
  | Event.sleep ms :: rest => ms :: sleepEvents rest
  | _ :: rest => sleepEvents rest

/-- The progress records stored into the `activeBatches` table, in order:
exactly the states readable through `getBatchProgress` during the run. -/
def progressWrites : List Event → List BatchProgress
  | [] => []
  | Event.progressSet p :: rest => p :: progressWrites rest
  | _ :: rest => progressWrites rest

/-- The snapshots passed to the `onProgress` observer, in order. -/
def notifyEvents : List Event → List BatchProgress
  | [] => []
  | Event.notify p :: rest => p :: notifyEvents rest
  | _ :: rest => notifyEvents rest

/-- `true` when some stored progress record breaks
`completed + failed + pending = total`. -/
def violatesProgressInvariant (t : List Event) : Bool :=
  (progressWrites t).any fun p => decide (p.completed + p.failed + p.pending ≠ p.total)

/-- Gas attributed to an outcome by the aggregation in `executeBatch`
(lines 169-171): counted only for a success outcome carrying a receipt. -/
def gasOfOutcome (o : TxOutcome) : Int :=
  match o.status, o.receipt with
  | OutcomeStatus.success, some r => r.gasUsed
  | _, _ => 0

/-- Cost attributed to an outcome by the aggregation in `executeBatch`. -/
def costOfOutcome (o : TxOutcome) : Int :=
  match o.status, o.receipt with
  | OutcomeStatus.success, some r => r.gasUsed * r.effectiveGasPrice
  | _, _ => 0

/-- A send call is the broadcast of intent `tx` at nonce `m`: its argument
object carries exactly the intent's fields and that nonce. -/
def broadcastsAt (tx : BatchTransaction) (m : Nat) (c : SendCall) : Bool :=
  decide (c.nonce = m) && decide (c.toAddr = tx.toAddr) && decide (c.value = tx.value)
    && decide (c.data = tx.data) && decide (c.gas = tx.gasLimit)

/-- Placeholder intent for out-of-range list reads. -/
def dummyTx : BatchTransaction :=
  { id := "", toAddr := "" }

/-- One step of the notification-discipline automaton.  State: the progress
record the observer has been kept consistent with, and whether a mutation
selected by `differ` is still awaiting its notification.  A selected mutation
must be followed by the observer call before any other event; an observer call
anywhere else, or with a stale record, is a violation (`none`). -/
def discStep (differ : BatchProgress → BatchProgress → Bool) :
    BatchProgress × Bool → Event → Option (BatchProgress × Bool)
  | (prev, false), Event.progressSet p => some (p, differ prev p)
  | (prev, true), Event.notify q => if q = prev then some (prev, false) else none
  | (_, true), _ => none
  | (_, false), Event.notify _ => none
  | st, _ => some st

/-- Run the notification-discipline automaton over a trace. -/
def runAuto (differ : BatchProgress → BatchProgress → Bool) :
    BatchProgress × Bool → List Event → Option (BatchProgress × Bool)
  | st, [] => some st
  | st, e :: rest =>
      match discStep differ st e with
      | none => none
      | some st2 => runAuto differ st2 rest

/-- A trace observes the notification discipline for the mutations selected by
`differ`: every selected mutation is followed immediately by exactly one
observer call carrying the new record, there is no other observer call, and no
notification is left outstanding at the end. -/
def disciplined (differ : BatchProgress → BatchProgress → Bool)
    (p0 : BatchProgress) (t : List Event) : Bool :=
  match runAuto differ (p0, false) t with
  | some (_, false) => true
  | _ => false

/-- Selects mutations changing `status`, `completed`, `failed` or `pending`
(the mutations the spec says are each followed by one observer call). -/
def changesStatusOrCounts (p q : BatchProgress) : Bool :=
  !(decide (p.status = q.status) && decide (p.completed = q.completed)
      && decide (p.failed = q.failed) && decide (p.pending = q.pending))

/-- Selects mutations changing `completed`, `failed` or `pending` only. -/
def changesCounts (p q : BatchProgress) : Bool :=
  !(decide (p.completed = q.completed) && decide (p.failed = q.failed)
      && decide (p.pending = q.pending))

/-- A confirming receipt with given gas figures, used by concrete scenarios. -/
def okReceipt (g price : Int) : TransactionReceipt :=
  { transactionHash := "h", blockNumber := 1, blockHash := "bh", fromAddr := "acct",
    toAddr := some "A", contractAddress := none, status := ReceiptStatus.success,
    gasUsed := g, effectiveGasPrice := price }

/-- A reverted receipt, used by concrete scenarios. -/
def revReceipt : TransactionReceipt :=
  { okReceipt 1000 2 with status := ReceiptStatus.reverted }

/-- Scenario for the progress-count slip: first broadcast throws, second
transaction confirms. -/
def envC1 : Env :=
  { address := "acct", startingNonce := 5,
    sendResult := fun j _ => if j = 0 then Except.error "boom" else Except.ok "h1",
    receiptResult := fun _ _ => Except.ok (okReceipt 21000 2),
    estimateGasResult := fun _ => 0, gasPrice := 1 }

/-- `createBatch` then sequential `executeBatch` (maxRetries 0, observer on)
over two intents under `envC1`. -/
def runC1 : Except String BatchResult × RunState × List Event :=
  let c := createBatch "b"
    [{ toAddr := "A", value := some 10 }, { toAddr := "B", value := some 20 }] initState
  executeBatch envC1 "b" c.1.2 { maxRetries := some 0, onProgress := true } c.2

/-- Scenario for the reversion-no-retry correction: the broadcast succeeds and
the receipt reports reversion. -/
def envC6 : Env :=
  { address := "acct", startingNonce := 0,
    sendResult := fun _ _ => Except.ok "h0",
    receiptResult := fun _ _ => Except.ok revReceipt,
    estimateGasResult := fun _ => 0, gasPrice := 1 }

/-- `executeWithRetry` with `maxRetries = 2` under `envC6`. -/
def runC6 : TxOutcome × RunState × List Event :=
  executeWithRetry envC6 { id := "t", toAddr := "A" } 7 2 initState

/-- Scenario for the notification-discipline correction: one intent that
confirms, observer configured. -/
def envC9 : Env :=
  { address := "acct", startingNonce := 0,
    sendResult := fun _ _ => Except.ok "h0",
    receiptResult := fun _ _ => Except.ok (okReceipt 100 2),
    estimateGasResult := fun _ => 0, gasPrice := 1 }

/-- `createBatch` then sequential `executeBatch` (observer on) over one intent
under `envC9`. -/
def runC9 : Except String BatchResult × RunState × List Event :=
  let c := createBatch "b" [{ toAddr := "A" }] initState
  executeBatch envC9 "b" c.1.2 { onProgress := true } c.2

/-- The initial progress record of the one-intent batch of `runC9`. -/
def p0C9 : BatchProgress :=
  { total := 1, completed := 0, failed := 0, pending := 1,
    currentTransaction := none, status := BatchStatus.pending }

/-- C1.  The claimed invariant `completed + failed + pending = total` FAILS at
an observable point: with two intents executed sequentially where the first
permanently fails (send throws, maxRetries 0) and the second confirms, the
success branch stores `completed := i + 1 = 2` absolutely instead of
incrementing, so the record `{total 2, completed 2, failed 1, pending 0}` (sum
3) is stored in the table and passed to the observer. -/
theorem C1_progress_invariant_violated :
    violatesProgressInvariant runC1.2.2 = true := by decide

/-- C6 counterexample.  A first-attempt receipt reporting reversion is NOT
retried: with `maxRetries = 2`, the outcome is surfaced immediately as failed
with retry count 0 after exactly one broadcast attempt. -/
theorem C6_reversion_not_retried :
    runC6.1.status = OutcomeStatus.failed ∧ runC6.1.retries = some 0 ∧
      (sendEvents runC6.2.2).length = 1 := by decide

/-- C9 counterexample.  With one intent that confirms and an observer
configured, the run violates the claimed discipline "every mutation changing
status/completed/failed/pending is followed synchronously by exactly one
observer invocation": the `status := executing` mutation is followed by the
nonce lookup, not by a notification. -/
theorem C9_status_mutation_unnotified :
    disciplined changesStatusOrCounts p0C9 runC9.2.2 = false := by decide

/-- C6 amended.  In sequential mode an on-chain reversion is NOT recovered by
the Retry Controller: whenever the first attempt's broadcast succeeds and its
receipt reports reversion, `executeWithRetry` surfaces a failed outcome
immediately — retry count 0 and exactly one broadcast attempt — for every
`maxRetries` value.  Only thrown errors are retried. -/
theorem C6_reversion_surfaced_without_retry (env : Env) (tx : BatchTransaction)
    (nonce k : Nat) (s : RunState)
    (hs : ∀ c, ∃ h, env.sendResult s.sendCount c = Except.ok h)
    (hw : ∀ h, ∃ r, env.receiptResult s.waitCount h = Except.ok r ∧
            r.status = ReceiptStatus.reverted) :
    (executeWithRetry env tx nonce k s).1.status = OutcomeStatus.failed ∧
      (executeWithRetry env tx nonce k s).1.retries = some 0 ∧
      (sendEvents (executeWithRetry env tx nonce k s).2.2).length = 1 := by
  obtain ⟨h, hh⟩ := hs (SendCall.mk tx.toAddr tx.value tx.data nonce tx.gasLimit env.address)
  obtain ⟨r, hr, hrev⟩ := hw h
  simp only [executeWithRetry, retryLoop, hh, hr, hrev, sendEvents]
  simp [hrev, sendEvents]

/-- Witness for `C6_reversion_surfaced_without_retry`, at the concrete
reverting environment `envC6` with `maxRetries = 2`. -/
theorem C6_reversion_surfaced_without_retry_witness :
    (executeWithRetry envC6 (BatchTransaction.mk "t" "A" none none none none)
        7 2 initState).1.status = OutcomeStatus.failed ∧
      (executeWithRetry envC6 (BatchTransaction.mk "t" "A" none none none none)
        7 2 initState).1.retries = some 0 ∧
      (sendEvents (executeWithRetry envC6 (BatchTransaction.mk "t" "A" none none none none)
        7 2 initState).2.2).length = 1 :=
  C6_reversion_surfaced_without_retry envC6 (BatchTransaction.mk "t" "A" none none none none)
    7 2 initState (fun _ => ⟨"h0", rfl⟩) (fun _ => ⟨revReceipt, rfl, rfl⟩)

theorem sendEvents_append (a b : List Event) :
    sendEvents (a ++ b) = sendEvents a ++ sendEvents b := by
  induction a with
  | nil => simp [sendEvents]
  | cons e rest ih => cases e <;> simp [sendEvents, ih]

theorem waitCalls_append (a b : List Event) :
    waitCalls (a ++ b) = waitCalls a + waitCalls b := by
  induction a with
  | nil => simp [waitCalls]
  | cons e rest ih => cases e <;> simp_arith [waitCalls, ih]

theorem nonceLookups_append (a b : List Event) :
    nonceLookups (a ++ b) = nonceLookups a + nonceLookups b := by
  induction a with
  | nil => simp [nonceLookups]
  | cons e rest ih => cases e <;> simp_arith [nonceLookups, ih]

theorem estimateCalls_append (a b : List Event) :
    estimateCalls (a ++ b) = estimateCalls a + estimateCalls b := by
  induction a with
  | nil => simp [estimateCalls]
  | cons e rest ih => cases e <;> simp_arith [estimateCalls, ih]

theorem gasPriceCalls_append (a b : List Event) :
    gasPriceCalls (a ++ b) = gasPriceCalls a + gasPriceCalls b := by
  induction a with
  | nil => simp [gasPriceCalls]
  | cons e rest ih => cases e <;> simp_arith [gasPriceCalls, ih]

theorem sleepEvents_append (a b : List Event) :
    sleepEvents (a ++ b) = sleepEvents a ++ sleepEvents b := by
  induction a with
  | nil => simp [sleepEvents]
  | cons e rest ih => cases e <;> simp [sleepEvents, ih]

theorem progressWrites_append (a b : List Event) :
    progressWrites (a ++ b) = progressWrites a ++ progressWrites b := by
  induction a with
  | nil => simp [progressWrites]
  | cons e rest ih => cases e <;> simp [progressWrites, ih]

theorem notifyEvents_append (a b : List Event) :
    notifyEvents (a ++ b) = notifyEvents a ++ notifyEvents b := by
  induction a with
  | nil => simp [notifyEvents]
  | cons e rest ih => cases e <;> simp [notifyEvents, ih]

/-- C10.  An empty intent list is not rejected: `executeBatch` (any mode, any
config, from any state) performs the starting-nonce lookup exactly once and
returns `success = true` with an empty outcome list, zero total gas and zero
total cost. -/
theorem C10_empty_batch_succeeds (env : Env) (batchId : String) (cfg : BatchConfig)
    (s : RunState) :
    (executeBatch env batchId [] cfg s).1 =
      Except.ok { batchId := batchId, success := true, transactions := [],
                  totalGasUsed := 0, totalCost := 0, executionTime := 0 } ∧
      nonceLookups (executeBatch env batchId [] cfg s).2.2 = 1 := by
  cases hcfg : cfg.atomic.getD false <;>
  cases hab : s.activeBatch <;>
    simp [executeBatch, hcfg, hab, updateProgress, executeAtomic, broadcastPhase,
      receiptPhase, sequentialLoop, nonceLookups_append, nonceLookups, applyUpdate]

theorem estimateLoop_spec (env : Env) (txs : List BatchTransactionInput) :
    ∀ (acc : Int) (s : RunState),
    estimateLoop env txs acc s =
      (acc + (((List.range' s.estimateCount txs.length).map env.estimateGasResult)).sum,
       { s with estimateCount := s.estimateCount + txs.length },
       ((List.range' s.estimateCount txs.length).map env.estimateGasResult).map Event.estimateGas) := by
  induction txs with
  | nil => intro acc s; simp [estimateLoop]
  | cons tx rest ih =>
      intro acc s
      simp [estimateLoop, ih, List.range'_succ, Nat.add_assoc, Nat.add_comm 1 rest.length]
      ring_nf

theorem estimateCalls_estimates (f : Nat → Int) (l : List Nat) :
    estimateCalls (l.map (Event.estimateGas ∘ f)) = l.length := by
  induction l with
  | nil => rfl
  | cons g rest ih => simp [estimateCalls, ih]

theorem gasPriceCalls_estimates (f : Nat → Int) (l : List Nat) :
    gasPriceCalls (l.map (Event.estimateGas ∘ f)) = 0 := by
  induction l with
  | nil => rfl
  | cons g rest ih => simp [gasPriceCalls, ih]

theorem sendEvents_estimates (f : Nat → Int) (l : List Nat) :
    sendEvents (l.map (Event.estimateGas ∘ f)) = [] := by
  induction l with
  | nil => rfl
  | cons g rest ih => simp [sendEvents, ih]

theorem nonceLookups_estimates (f : Nat → Int) (l : List Nat) :
    nonceLookups (l.map (Event.estimateGas ∘ f)) = 0 := by
  induction l with
  | nil => rfl
  | cons g rest ih => simp [nonceLookups, ih]

/-- C8.  `estimateBatchCost` queries one gas estimate per intent and no more,
sums exactly those answers into `totalGasLimit`, queries the gas price exactly
once, returns `estimatedCost = totalGasLimit × gasPrice`, and performs no
broadcast and no nonce lookup. -/
theorem C8_estimateBatchCost_shape (env : Env) (txs : List BatchTransactionInput)
    (s : RunState) :
    (estimateBatchCost env txs s).1.1 =
        ((List.range' s.estimateCount txs.length).map env.estimateGasResult).sum ∧
      (estimateBatchCost env txs s).1.2 =
        (estimateBatchCost env txs s).1.1 * env.gasPrice ∧
      estimateCalls (estimateBatchCost env txs s).2.2 = txs.length ∧
      gasPriceCalls (estimateBatchCost env txs s).2.2 = 1 ∧
      sendEvents (estimateBatchCost env txs s).2.2 = [] ∧
      nonceLookups (estimateBatchCost env txs s).2.2 = 0 := by
  simp [estimateBatchCost, estimateLoop_spec, estimateCalls_append, gasPriceCalls_append,
    sendEvents_append, nonceLookups_append, estimateCalls_estimates, gasPriceCalls_estimates,
    sendEvents_estimates, nonceLookups_estimates, estimateCalls, gasPriceCalls, sendEvents,
    nonceLookups]

theorem sendEvents_if_sleep (P : Prop) [Decidable P] (m : Nat) :
    sendEvents (if P then [Event.sleep m] else []) = [] := by
  split <;> rfl

theorem progressWrites_if_sleep (P : Prop) [Decidable P] (m : Nat) :
    progressWrites (if P then [Event.sleep m] else []) = [] := by
  split <;> rfl

theorem notifyEvents_if_sleep (P : Prop) [Decidable P] (m : Nat) :
    notifyEvents (if P then [Event.sleep m] else []) = [] := by
  split <;> rfl

theorem retryLoop_id (env : Env) (tx : BatchTransaction) (nonce maxR : Nat) :
    ∀ (fuel attempt : Nat) (le : Option String) (s : RunState),
    (retryLoop env tx nonce maxR fuel attempt le s).1.id = tx.id := by
  intro fuel
  induction fuel with
  | zero => intro attempt le s; rfl
  | succ f ih =>
      intro attempt le s
      simp only [retryLoop]
      split
      · simp [ih]
      · split
        · simp [ih]
        · rfl

theorem retryLoop_sends_ok (env : Env) (tx : BatchTransaction) (nonce maxR : Nat) :
    ∀ (fuel attempt : Nat) (le : Option String) (s : RunState),
    (sendEvents (retryLoop env tx nonce maxR fuel attempt le s).2.2).all
      (broadcastsAt tx nonce) = true := by
  intro fuel
  induction fuel with
  | zero => intro attempt le s; rfl
  | succ f ih =>
      intro attempt le s
      simp only [retryLoop]
      split
      · simp [sendEvents, sendEvents_append, sendEvents_if_sleep, ih, broadcastsAt]
      · split
        · simp [sendEvents, sendEvents_append, sendEvents_if_sleep, ih, broadcastsAt]
        · simp [sendEvents, broadcastsAt]

theorem retryLoop_activeBatch (env : Env) (tx : BatchTransaction) (nonce maxR : Nat) :
    ∀ (fuel attempt : Nat) (le : Option String) (s : RunState),
    (retryLoop env tx nonce maxR fuel attempt le s).2.1.activeBatch = s.activeBatch := by
  intro fuel
  induction fuel with
  | zero => intro attempt le s; rfl
  | succ f ih =>
      intro attempt le s
      simp only [retryLoop]
      split
      · simp [ih]
      · split
        · simp [ih]
        · rfl

theorem retryLoop_sends_nonempty (env : Env) (tx : BatchTransaction) (nonce maxR : Nat)
    (f attempt : Nat) (le : Option String) (s : RunState) :
    sendEvents (retryLoop env tx nonce maxR (f + 1) attempt le s).2.2 ≠ [] := by
  simp only [retryLoop]
  split
  · simp [sendEvents]
  · split
    · simp [sendEvents]
    · simp [sendEvents]

theorem retryLoop_progressWrites (env : Env) (tx : BatchTransaction) (nonce maxR : Nat) :
    ∀ (fuel attempt : Nat) (le : Option String) (s : RunState),
    progressWrites (retryLoop env tx nonce maxR fuel attempt le s).2.2 = [] := by
  intro fuel
  induction fuel with
  | zero => intro attempt le s; rfl
  | succ f ih =>
      intro attempt le s
      simp only [retryLoop]
      split
      · simp [progressWrites, progressWrites_append, progressWrites_if_sleep, ih]
      · split
        · simp [progressWrites, progressWrites_append, progressWrites_if_sleep, ih]
        · rfl

theorem retryLoop_notifyEvents (env : Env) (tx : BatchTransaction) (nonce maxR : Nat) :
    ∀ (fuel attempt : Nat) (le : Option String) (s : RunState),
    notifyEvents (retryLoop env tx nonce maxR fuel attempt le s).2.2 = [] := by
  intro fuel
  induction fuel with
  | zero => intro attempt le s; rfl
  | succ f ih =>
      intro attempt le s
      simp only [retryLoop]
      split
      · simp [notifyEvents, notifyEvents_append, notifyEvents_if_sleep, ih]
      · split
        · simp [notifyEvents, notifyEvents_append, notifyEvents_if_sleep, ih]
        · rfl

theorem executeWithRetry_id (env : Env) (tx : BatchTransaction) (nonce k : Nat)
    (s : RunState) : (executeWithRetry env tx nonce k s).1.id = tx.id :=
  retryLoop_id env tx nonce k (k + 1) 0 none s

theorem notifyIf_state (cfg : BatchConfig) (s : RunState) : (notifyIf cfg s).1 = s := by
  unfold notifyIf
  split
  · cases s.activeBatch <;> simp
  · rfl

theorem sendEvents_updateProgress (u : ProgressUpdate) (s : RunState) :
    sendEvents (updateProgress u s).2 = [] := by
  unfold updateProgress
  cases s.activeBatch <;> rfl

theorem sendEvents_notifyIf (cfg : BatchConfig) (s : RunState) :
    sendEvents (notifyIf cfg s).2 = [] := by
  unfold notifyIf
  split
  · cases s.activeBatch <;> rfl
  · rfl

theorem sequentialLoop_outcomes (env : Env) (cfg : BatchConfig) (n nonce : Nat) :
    ∀ (txs : List BatchTransaction) (i : Nat) (results : List TxOutcome)
      (gas cost : Int) (s : RunState),
    ∃ nw : List TxOutcome,
      (sequentialLoop env cfg n nonce txs i results gas cost s).1.1 = results ++ nw ∧
      nw.map TxOutcome.id = txs.map BatchTransaction.id ∧
      (sequentialLoop env cfg n nonce txs i results gas cost s).1.2.1 =
        gas + (nw.map gasOfOutcome).sum ∧
      (sequentialLoop env cfg n nonce txs i results gas cost s).1.2.2 =
        cost + (nw.map costOfOutcome).sum := by
  intro txs
  induction txs with
  | nil =>
      intro i results gas cost s
      exact ⟨[], by simp [sequentialLoop], by simp, by simp [sequentialLoop],
        by simp [sequentialLoop]⟩
  | cons tx rest ih =>
      intro i results gas cost s
      simp only [sequentialLoop]
      generalize hrt : executeWithRetry env tx (nonce + i) (cfg.maxRetries.getD 0)
          (updateProgress { currentTransaction := some (some tx.id) } s).1 = rt
      have hid : rt.1.id = tx.id := by rw [← hrt]; exact executeWithRetry_id env tx _ _ _
      obtain ⟨result, s2, tr⟩ := rt
      simp only at hid
      cases hst : result.status <;> cases hrc : result.receipt <;>
        simp only [hst, hrc] <;>
        · obtain ⟨nw', h1, h2, h3, h4⟩ := ih (i + 1) (results ++ [result]) _ _ _
          refine ⟨result :: nw', ?_, ?_, ?_, ?_⟩
          · rw [h1]; simp
          · simp [h2, hid]
          · rw [h3]; simp [gasOfOutcome, hst, hrc]; try ring
          · rw [h4]; simp [costOfOutcome, hst, hrc]; try ring

theorem sequentialLoop_sends (env : Env) (cfg : BatchConfig) (n nonce : Nat) :
    ∀ (txs : List BatchTransaction) (i : Nat) (results : List TxOutcome)
      (gas cost : Int) (s : RunState),
    ∃ B : List (List SendCall),
      sendEvents (sequentialLoop env cfg n nonce txs i results gas cost s).2.2 = B.flatten ∧
      B.length = txs.length ∧
      (∀ j, ((B.getD j []).all (broadcastsAt (txs.getD j dummyTx) (nonce + i + j))) = true) ∧
      (∀ j, j < txs.length → B.getD j [] ≠ []) := by
  intro txs
  induction txs with
  | nil =>
      intro i results gas cost s
      refine ⟨[], by simp [sequentialLoop, sendEvents], by simp, ?_, ?_⟩
      · intro j; simp
      · intro j hj; simp at hj
  | cons tx rest ih =>
      intro i results gas cost s
      simp only [sequentialLoop]
      generalize hrt : executeWithRetry env tx (nonce + i) (cfg.maxRetries.getD 0)
          (updateProgress { currentTransaction := some (some tx.id) } s).1 = rt
      have hsok : (sendEvents rt.2.2).all (broadcastsAt tx (nonce + i)) = true := by
        rw [← hrt]; exact retryLoop_sends_ok env tx _ _ _ _ _ _
      have hsne : sendEvents rt.2.2 ≠ [] := by
        rw [← hrt]; exact retryLoop_sends_nonempty env tx _ _ _ _ _ _
      obtain ⟨result, s2, tr⟩ := rt
      simp only at hsok hsne
      cases hst : result.status <;> cases hrc : result.receipt <;>
        simp only [hst, hrc] <;>
        · obtain ⟨B', hb1, hb2, hb3, hb4⟩ := ih (i + 1) (results ++ [result]) _ _ _
          refine ⟨sendEvents tr :: B', ?_, ?_, ?_, ?_⟩
          · simp only [sendEvents_append, sendEvents_if_sleep, sendEvents_updateProgress,
              sendEvents_notifyIf, List.nil_append, List.append_nil, List.flatten_cons]
            rw [hb1]
          · simp [hb2]
          · intro j
            cases j with
            | zero => simpa using hsok
            | succ j =>
                have harith : nonce + i + (j + 1) = nonce + (i + 1) + j := by omega
                simpa [harith] using hb3 j
          · intro j hj
            cases j with
            | zero => simpa using hsne
            | succ j => simpa using hb4 j (by simpa using hj)

theorem updateProgress_sendCount (u : ProgressUpdate) (s : RunState) :
    (updateProgress u s).1.sendCount = s.sendCount := by
  unfold updateProgress
  cases s.activeBatch <;> rfl

theorem updateProgress_waitCount (u : ProgressUpdate) (s : RunState) :
    (updateProgress u s).1.waitCount = s.waitCount := by
  unfold updateProgress
  cases s.activeBatch <;> rfl

theorem waitCalls_updateProgress (u : ProgressUpdate) (s : RunState) :
    waitCalls (updateProgress u s).2 = 0 := by
  unfold updateProgress
  cases s.activeBatch <;> rfl

theorem waitCalls_notifyIf (cfg : BatchConfig) (s : RunState) :
    waitCalls (notifyIf cfg s).2 = 0 := by
  unfold notifyIf
  split
  · cases s.activeBatch <;> rfl
  · rfl

theorem getD_replicate_nil (n j : Nat) :
    (List.replicate n ([] : List SendCall)).getD j [] = [] := by
  induction n generalizing j with
  | zero => cases j <;> rfl
  | succ m ih => cases j <;> simp [List.replicate, ih]

theorem broadcastPhase_sends (env : Env) (startNonce : Nat) :
    ∀ (txs : List BatchTransaction) (i : Nat) (s : RunState),
    ∃ B : List (List SendCall),
      sendEvents (broadcastPhase env startNonce txs i s).2.2 = B.flatten ∧
      B.length = txs.length ∧
      ∀ j, ((B.getD j []).all (broadcastsAt (txs.getD j dummyTx) (startNonce + i + j))) = true := by
  intro txs
  induction txs with
  | nil =>
      intro i s
      exact ⟨[], by simp [broadcastPhase, sendEvents], by simp, by intro j; simp⟩
  | cons tx rest ih =>
      intro i s
      simp only [broadcastPhase]
      cases hsr : env.sendResult (updateProgress { currentTransaction := some (some tx.id) } s).1.sendCount
          (SendCall.mk tx.toAddr tx.value tx.data (startNonce + i) tx.gasLimit env.address) with
      | error msg =>
          refine ⟨[SendCall.mk tx.toAddr tx.value tx.data (startNonce + i) tx.gasLimit env.address]
              :: List.replicate rest.length [], ?_, ?_, ?_⟩
          · simp [hsr, sendEvents_append, sendEvents_updateProgress, sendEvents]
          · simp
          · intro j
            cases j with
            | zero => simp [broadcastsAt]
            | succ j => simp [getD_replicate_nil]
      | ok hash =>
          obtain ⟨B', hb1, hb2, hb3⟩ := ih (i + 1) _
          refine ⟨[SendCall.mk tx.toAddr tx.value tx.data (startNonce + i) tx.gasLimit env.address]
              :: B', ?_, ?_, ?_⟩
          · simp only [hsr, sendEvents_append, sendEvents_updateProgress, sendEvents,
              List.nil_append, List.append_nil, List.flatten_cons]
            rw [hb1]
          · simp [hb2]
          · intro j
            cases j with
            | zero => simp [broadcastsAt]
            | succ j =>
                have harith : startNonce + i + (j + 1) = startNonce + (i + 1) + j := by omega
                simpa [harith] using hb3 j

theorem broadcastPhase_allOk (env : Env) (startNonce : Nat)
    (hsend : ∀ j c, ∃ h, env.sendResult j c = Except.ok h) :
    ∀ (txs : List BatchTransaction) (i : Nat) (s : RunState),
    ∃ hashes, (broadcastPhase env startNonce txs i s).1 = Except.ok hashes ∧
      hashes.length = txs.length ∧
      (broadcastPhase env startNonce txs i s).2.1.waitCount = s.waitCount ∧
      waitCalls (broadcastPhase env startNonce txs i s).2.2 = 0 := by
  intro txs
  induction txs with
  | nil => intro i s; exact ⟨[], rfl, rfl, rfl, rfl⟩
  | cons tx rest ih =>
      intro i s
      obtain ⟨h, hh⟩ := hsend (updateProgress { currentTransaction := some (some tx.id) } s).1.sendCount
        (SendCall.mk tx.toAddr tx.value tx.data (startNonce + i) tx.gasLimit env.address)
      simp only [broadcastPhase, hh]
      obtain ⟨hashes', h1, h2, h3, h4⟩ := ih (i + 1) _
      refine ⟨h :: hashes', ?_, ?_, ?_, ?_⟩
      · rw [h1]; rfl
      · simp [h2]
      · rw [h3]; simp [updateProgress_waitCount]
      · simp [waitCalls_append, waitCalls_updateProgress, waitCalls, h4]

theorem receiptPhase_sends (env : Env) (cfg : BatchConfig) (n : Nat) :
    ∀ (pairs : List (BatchTransaction × String)) (i : Nat) (results : List TxOutcome)
      (gas cost : Int) (s : RunState),
    sendEvents (receiptPhase env cfg n pairs i results gas cost s).2.2 = [] := by
  intro pairs
  induction pairs with
  | nil => intro i results gas cost s; rfl
  | cons p rest ih =>
      intro i results gas cost s
      obtain ⟨tx, hash⟩ := p
      cases hw : env.receiptResult s.waitCount hash with
      | error msg => simp [receiptPhase, hw, sendEvents]
      | ok receipt =>
          simp only [receiptPhase, hw]
          split
          · simp [sendEvents]
          · simp [sendEvents, sendEvents_append, sendEvents_updateProgress,
              sendEvents_notifyIf, ih]

theorem receiptPhase_ok (env : Env) (cfg : BatchConfig) (n : Nat) :
    ∀ (pairs : List (BatchTransaction × String)) (i : Nat) (results : List TxOutcome)
      (gas cost : Int) (s : RunState) (res : List TxOutcome × Int × Int),
    (receiptPhase env cfg n pairs i results gas cost s).1 = Except.ok res →
    ∃ nw, res.1 = results ++ nw ∧
      res.2.1 = gas + (nw.map gasOfOutcome).sum ∧
      res.2.2 = cost + (nw.map costOfOutcome).sum ∧
      nw.all (fun o => decide (o.status = OutcomeStatus.success)) = true := by
  intro pairs
  induction pairs with
  | nil =>
      intro i results gas cost s res h
      simp only [receiptPhase] at h
      cases h
      exact ⟨[], by simp, by simp, by simp, by simp⟩
  | cons p rest ih =>
      intro i results gas cost s res h
      obtain ⟨tx, hash⟩ := p
      cases hw : env.receiptResult s.waitCount hash with
      | error msg => simp [receiptPhase, hw] at h
      | ok receipt =>
          simp only [receiptPhase, hw] at h
          by_cases hrev : receipt.status = ReceiptStatus.reverted
          · rw [if_pos hrev] at h; cases h
          · rw [if_neg hrev] at h
            obtain ⟨nw', h1, h2, h3, h4⟩ := ih _ _ _ _ _ _ h
            refine ⟨TxOutcome.mk tx.id OutcomeStatus.success
                (some (atomicReceipt receipt)) none none :: nw', ?_, ?_, ?_, ?_⟩
            · rw [h1]; simp
            · rw [h2]; simp [gasOfOutcome, atomicReceipt]; ring
            · rw [h3]; simp [costOfOutcome, atomicReceipt]; ring
            · simp [h4]

theorem receiptPhase_reverts (env : Env) (cfg : BatchConfig) (n : Nat) :
    ∀ (pairs : List (BatchTransaction × String)) (k i : Nat) (results : List TxOutcome)
      (gas cost : Int) (s : RunState),
    k < pairs.length →
    (∀ j h, j < k → ∃ r, env.receiptResult (s.waitCount + j) h = Except.ok r ∧
        r.status = ReceiptStatus.success) →
    (∀ h, ∃ r, env.receiptResult (s.waitCount + k) h = Except.ok r ∧
        r.status = ReceiptStatus.reverted) →
    (receiptPhase env cfg n pairs i results gas cost s).1 =
      Except.error ("Atomic batch failed: Transaction " ++
        ((pairs.getD k (dummyTx, "")).1.id) ++ " reverted") ∧
    waitCalls (receiptPhase env cfg n pairs i results gas cost s).2.2 = k + 1 := by
  intro pairs
  induction pairs with
  | nil => intro k i results gas cost s hk; simp at hk
  | cons p rest ih =>
      intro k i results gas cost s hk hpre hrev
      obtain ⟨tx, hash⟩ := p
      cases k with
      | zero =>
          obtain ⟨r, hr, hrv⟩ := hrev hash
          rw [Nat.add_zero] at hr
          simp only [receiptPhase, hr]
          rw [if_pos hrv]
          exact ⟨rfl, rfl⟩
      | succ k' =>
          obtain ⟨r, hr, hrs⟩ := hpre 0 hash (Nat.succ_pos k')
          rw [Nat.add_zero] at hr
          simp only [receiptPhase, hr]
          rw [if_neg (by simp [hrs])]
          rw [notifyIf_state]
          have key := ih k' (i + 1)
              (results ++ [TxOutcome.mk tx.id OutcomeStatus.success
                (some (atomicReceipt r)) none none])
              (gas + r.gasUsed) (cost + r.gasUsed * r.effectiveGasPrice)
              ((updateProgress
                  (ProgressUpdate.mk none (some (i + 1)) none (some (n - i - 1)) none none)
                  (RunState.mk s.activeBatch s.sendCount (s.waitCount + 1)
                    s.estimateCount)).1)
              (by simpa using hk)
              (by intro j h2 hj
                  rw [updateProgress_waitCount]
                  have hx := hpre (j + 1) h2 (by omega)
                  have harith : s.waitCount + (j + 1) =
                      (RunState.mk s.activeBatch s.sendCount (s.waitCount + 1)
                        s.estimateCount).waitCount + j := by simp; omega
                  rwa [harith] at hx)
              (by intro h2
                  rw [updateProgress_waitCount]
                  have hx := hrev h2
                  have harith : s.waitCount + (k' + 1) =
                      (RunState.mk s.activeBatch s.sendCount (s.waitCount + 1)
                        s.estimateCount).waitCount + k' := by simp; omega
                  rwa [harith] at hx)
          constructor
          · simpa using key.1
          · simp only [waitCalls_append, waitCalls_updateProgress, waitCalls_notifyIf,
              key.2]
            simp_arith [waitCalls]

theorem executeAtomic_sends (env : Env) (txs : List BatchTransaction) (startNonce : Nat)
    (cfg : BatchConfig) (s : RunState) :
    ∃ B : List (List SendCall),
      sendEvents (executeAtomic env txs startNonce cfg s).2.2 = B.flatten ∧
      B.length = txs.length ∧
      ∀ j, ((B.getD j []).all (broadcastsAt (txs.getD j dummyTx) (startNonce + j))) = true := by
  obtain ⟨B, h1, h2, h3⟩ := broadcastPhase_sends env startNonce txs 0 s
  refine ⟨B, ?_, h2, fun j => by simpa using h3 j⟩
  simp only [executeAtomic]
  split
  · simpa using h1
  · simp only [sendEvents_append, receiptPhase_sends, List.append_nil]
    simpa using h1

theorem executeBatch_sends (env : Env) (batchId : String) (txs : List BatchTransaction)
    (cfg : BatchConfig) (s : RunState) :
    sendEvents (executeBatch env batchId txs cfg s).2.2 =
      (if cfg.atomic.getD false
        then sendEvents (executeAtomic env txs env.startingNonce cfg
          (updateProgress (ProgressUpdate.mk none none none none
            (some (txs.head?.map BatchTransaction.id)) (some BatchStatus.executing)) s).1).2.2
        else sendEvents (sequentialLoop env cfg txs.length env.startingNonce txs 0 [] 0 0
          (updateProgress (ProgressUpdate.mk none none none none
            (some (txs.head?.map BatchTransaction.id)) (some BatchStatus.executing)) s).1).2.2) := by
  by_cases hat : cfg.atomic.getD false <;>
    simp only [executeBatch, hat, if_true, if_false] <;>
    split <;>
    simp [sendEvents_append, sendEvents_updateProgress, sendEvents]

/-- C2.  Nonce allocation: in every `executeBatch` run (either mode, any
environment), the broadcast calls partition into per-position blocks, in
position order: block `i` holds every broadcast attempt of intent `i` (all of
its fields are intent i's), and every attempt in block `i` — including each
retry — carries nonce `startingNonce + i`. -/
theorem C2_nonce_per_position (env : Env) (batchId : String)
    (txs : List BatchTransaction) (cfg : BatchConfig) (s : RunState) :
    ∃ B : List (List SendCall),
      sendEvents (executeBatch env batchId txs cfg s).2.2 = B.flatten ∧
      B.length = txs.length ∧
      ∀ j, ((B.getD j []).all
        (broadcastsAt (txs.getD j dummyTx) (env.startingNonce + j))) = true := by
  rw [executeBatch_sends]
  by_cases hat : cfg.atomic.getD false
  · rw [if_pos hat]
    exact executeAtomic_sends env txs env.startingNonce cfg _
  · rw [if_neg hat]
    obtain ⟨B, h1, h2, h3, _⟩ :=
      sequentialLoop_sends env cfg txs.length env.startingNonce txs 0 [] 0 0 _
    exact ⟨B, h1, h2, fun j => by simpa using h3 j⟩

/-- C4.  Sequential mode never short-circuits: for every environment — in
particular when an earlier intent permanently fails — `executeBatch` returns a
`BatchResult` whose outcome list has exactly one entry per intent with matching
ids in input order, and the broadcast calls split into per-position blocks
where every block `i` is non-empty (position `i` did receive at least one
broadcast attempt) and all its attempts use nonce `startingNonce + i`. -/
theorem C4_sequential_full_processing (env : Env) (batchId : String)
    (txs : List BatchTransaction) (cfg : BatchConfig) (s : RunState)
    (hseq : cfg.atomic.getD false = false) :
    ∃ res, (executeBatch env batchId txs cfg s).1 = Except.ok res ∧
      res.transactions.map TxOutcome.id = txs.map BatchTransaction.id ∧
      res.transactions.length = txs.length ∧
      ∃ B : List (List SendCall),
        sendEvents (executeBatch env batchId txs cfg s).2.2 = B.flatten ∧
        B.length = txs.length ∧
        (∀ j, ((B.getD j []).all
          (broadcastsAt (txs.getD j dummyTx) (env.startingNonce + j))) = true) ∧
        (∀ j, j < txs.length → B.getD j [] ≠ []) := by
  obtain ⟨nw, ho1, ho2, ho3, ho4⟩ :=
    sequentialLoop_outcomes env cfg txs.length env.startingNonce txs 0 [] 0 0
      (updateProgress (ProgressUpdate.mk none none none none
        (some (txs.head?.map BatchTransaction.id)) (some BatchStatus.executing)) s).1
  obtain ⟨B, hb1, hb2, hb3, hb4⟩ :=
    sequentialLoop_sends env cfg txs.length env.startingNonce txs 0 [] 0 0
      (updateProgress (ProgressUpdate.mk none none none none
        (some (txs.head?.map BatchTransaction.id)) (some BatchStatus.executing)) s).1
  simp only [List.nil_append] at ho1
  simp only [executeBatch, hseq, if_false]
  refine ⟨_, rfl, ?_, ?_, ⟨B, ?_, hb2, fun j => by simpa using hb3 j, hb4⟩⟩
  · simpa [ho1] using ho2
  · have := congrArg List.length ho2
    simpa [ho1] using this
  · simp [sendEvents_append, sendEvents_updateProgress, sendEvents, hb1]

/-- Environment for the C4 witness: intent 0 exhausts its retries (both
attempts throw), later broadcasts succeed and confirm. -/
def envC4 : Env :=
  { address := "acct", startingNonce := 9,
    sendResult := fun j _ => if j ≤ 1 then Except.error "boom" else Except.ok "h",
    receiptResult := fun _ _ => Except.ok (okReceipt 100 2),
    estimateGasResult := fun _ => 0, gasPrice := 1 }

/-- The three-intent batch of the C4 witness. -/
def batchC4 : (String × List BatchTransaction) × RunState :=
  createBatch "b" [{ toAddr := "A" }, { toAddr := "B" }, { toAddr := "C" }] initState

/-- Witness for `C4_sequential_full_processing`: three intents, sequential,
`maxRetries = 1`, first intent permanently failing. -/
theorem C4_sequential_full_processing_witness :
    ∃ res, (executeBatch envC4 "b" batchC4.1.2 { maxRetries := some 1 } batchC4.2).1 =
        Except.ok res ∧
      res.transactions.map TxOutcome.id = batchC4.1.2.map BatchTransaction.id ∧
      res.transactions.length = batchC4.1.2.length ∧
      ∃ B : List (List SendCall),
        sendEvents (executeBatch envC4 "b" batchC4.1.2 { maxRetries := some 1 }
          batchC4.2).2.2 = B.flatten ∧
        B.length = batchC4.1.2.length ∧
        (∀ j, ((B.getD j []).all
          (broadcastsAt (batchC4.1.2.getD j dummyTx) (envC4.startingNonce + j))) = true) ∧
        (∀ j, j < batchC4.1.2.length → B.getD j [] ≠ []) :=
  C4_sequential_full_processing envC4 "b" batchC4.1.2 { maxRetries := some 1 } batchC4.2 rfl

/-- C7.  Whenever `executeBatch` returns a `BatchResult` (either mode),
`success` is exactly "every outcome has status success", `totalGasUsed` is the
sum over the outcome list of the gas attributed to each outcome (its receipt's
`gasUsed` for confirmed outcomes, 0 otherwise — so when all transactions
confirm it is the sum of the receipts' `gasUsed`), and `totalCost` is the
corresponding sum of `gasUsed × effectiveGasPrice`. -/
theorem C7_result_aggregation (env : Env) (batchId : String)
    (txs : List BatchTransaction) (cfg : BatchConfig) (s : RunState) (res : BatchResult)
    (h : (executeBatch env batchId txs cfg s).1 = Except.ok res) :
    res.success = res.transactions.all (fun o => decide (o.status = OutcomeStatus.success)) ∧
    res.totalGasUsed = (res.transactions.map gasOfOutcome).sum ∧
    res.totalCost = (res.transactions.map costOfOutcome).sum := by
  by_cases hat : cfg.atomic.getD false
  · simp only [executeBatch, hat, if_true] at h
    simp only [executeAtomic] at h
    split at h
    next x heq =>
      split at heq
      · exact absurd heq (by simp)
      · obtain ⟨nw, ha1, ha2, ha3, ha4⟩ := receiptPhase_ok env cfg txs.length _ _ _ _ _ _ _ heq
        injection h with h
        subst h
        simp only [List.nil_append] at ha1
        refine ⟨rfl, ?_, ?_⟩
        · simpa [ha1] using ha2
        · simpa [ha1] using ha3
    next x heq => exact absurd h (by simp)
  · simp only [executeBatch, hat, if_false] at h
    injection h with h
    subst h
    obtain ⟨nw, ho1, ho2, ho3, ho4⟩ :=
      sequentialLoop_outcomes env cfg txs.length env.startingNonce txs 0 [] 0 0
        (updateProgress (ProgressUpdate.mk none none none none
          (some (txs.head?.map BatchTransaction.id)) (some BatchStatus.executing)) s).1
    simp only [List.nil_append] at ho1
    refine ⟨rfl, ?_, ?_⟩
    · simpa [ho1] using ho3
    · simpa [ho1] using ho4

/-- Environment of the spec's two-intent scenario: starting nonce 5, all
broadcasts succeed, the two receipts confirm with gas 21000 and 40000 at
effective price 2. -/
def envC7 : Env :=
  { address := "acct", startingNonce := 5,
    sendResult := fun j _ => Except.ok ("h" ++ toString j),
    receiptResult := fun j _ => Except.ok (okReceipt (if j = 0 then 21000 else 40000) 2),
    estimateGasResult := fun _ => 0, gasPrice := 1 }

/-- The two-intent batch `[{to:A,value:10},{to:B,value:20}]` of the spec
scenario. -/
def batchC7 : (String × List BatchTransaction) × RunState :=
  createBatch "b"
    [{ toAddr := "A", value := some 10 }, { toAddr := "B", value := some 20 }] initState

/-- The `BatchResult` of the spec scenario (sequential, maxRetries 0,
startingNonce 5, both confirming). -/
def resC7 : BatchResult :=
  ((executeBatch envC7 "b" batchC7.1.2 { maxRetries := some 0 } batchC7.2).1.toOption).getD
    (BatchResult.mk "" false [] 0 0 0)

/-- Witness for `C7_result_aggregation` at the spec's concrete scenario. -/
theorem C7_result_aggregation_witness :
    resC7.success = resC7.transactions.all
      (fun o => decide (o.status = OutcomeStatus.success)) ∧
    resC7.totalGasUsed = (resC7.transactions.map gasOfOutcome).sum ∧
    resC7.totalCost = (resC7.transactions.map costOfOutcome).sum :=
  C7_result_aggregation envC7 "b" batchC7.1.2 { maxRetries := some 0 } batchC7.2 resC7 rfl

theorem getD_zip (l1 : List BatchTransaction) :
    ∀ (l2 : List String) (k : Nat), k < l1.length → k < l2.length →
    (l1.zip l2).getD k (dummyTx, "") = (l1.getD k dummyTx, l2.getD k "") := by
  induction l1 with
  | nil => intro l2 k h1 h2; simp at h1
  | cons a l1 ih =>
      intro l2 k h1 h2
      cases l2 with
      | nil => simp at h2
      | cons b l2 =>
          cases k with
          | zero => rfl
          | succ k => simpa using ih l2 k (by simpa using h1) (by simpa using h2)

/-- C3.  Atomic short-circuit: if every broadcast succeeds, receipts before
position `k` confirm, and position `k`'s receipt reports reversion, then
`executeBatch` aborts with the batch-fatal error naming transaction `k`'s id,
and the collaborator's receipt wait is called exactly `k + 1` times — no
receipt is requested for any later position. -/
theorem C3_atomic_short_circuit (env : Env) (batchId : String) (txs : List BatchTransaction)
    (cfg : BatchConfig) (s : RunState) (k : Nat)
    (hat : cfg.atomic.getD false = true)
    (hk : k < txs.length)
    (hsend : ∀ j c, ∃ h, env.sendResult j c = Except.ok h)
    (hpre : ∀ j h, j < k → ∃ r, env.receiptResult (s.waitCount + j) h = Except.ok r ∧
        r.status = ReceiptStatus.success)
    (hrev : ∀ h, ∃ r, env.receiptResult (s.waitCount + k) h = Except.ok r ∧
        r.status = ReceiptStatus.reverted) :
    (executeBatch env batchId txs cfg s).1 =
      Except.error ("Batch execution failed: Atomic batch failed: Transaction " ++
        (txs.getD k dummyTx).id ++ " reverted") ∧
    waitCalls (executeBatch env batchId txs cfg s).2.2 = k + 1 := by
  simp only [executeBatch, hat, if_true, executeAtomic]
  set u0 := updateProgress (ProgressUpdate.mk none none none none
    (some (txs.head?.map BatchTransaction.id)) (some BatchStatus.executing)) s with hu0
  set bc := broadcastPhase env env.startingNonce txs 0 u0.1 with hbc
  obtain ⟨hashes, hb1, hb2, hb3, hb4⟩ := broadcastPhase_allOk env env.startingNonce hsend txs 0 u0.1
  rw [← hbc] at hb3 hb4
  have hbw : bc.2.1.waitCount = s.waitCount := by
    rw [hb3, hu0, updateProgress_waitCount]
  have hklen : k < (txs.zip hashes).length := by
    rw [List.length_zip, hb2]
    omega
  have hpre2 : ∀ j h, j < k → ∃ r, env.receiptResult (bc.2.1.waitCount + j) h = Except.ok r ∧
      r.status = ReceiptStatus.success := by
    intro j h hj
    rw [hbw]
    exact hpre j h hj
  have hrev2 : ∀ h, ∃ r, env.receiptResult (bc.2.1.waitCount + k) h = Except.ok r ∧
      r.status = ReceiptStatus.reverted := by
    intro h
    rw [hbw]
    exact hrev h
  obtain ⟨hr1, hr2⟩ := receiptPhase_reverts env cfg txs.length (txs.zip hashes) k 0 [] 0 0
    bc.2.1 hklen hpre2 hrev2
  rw [getD_zip txs hashes k hk (by omega)] at hr1
  rw [hb1]
  constructor
  · simp only [hr1]
    rw [← String.append_assoc, ← String.append_assoc]
    rfl
  · simp only [hr1]
    simp only [waitCalls_append, waitCalls_updateProgress, hr2, hb4]
    simp_arith [waitCalls]
    rw [hu0]
    exact waitCalls_updateProgress _ _

/-- Environment for the C3 witness: all broadcasts succeed; the second receipt
(wait index 1) reports reversion, every other receipt confirms. -/
def envC3 : Env :=
  { address := "acct", startingNonce := 4,
    sendResult := fun j _ => Except.ok ("h" ++ toString j),
    receiptResult := fun j _ =>
      if j = 1 then Except.ok revReceipt else Except.ok (okReceipt 100 2),
    estimateGasResult := fun _ => 0, gasPrice := 1 }

/-- The three-intent batch of the C3 witness. -/
def batchC3 : (String × List BatchTransaction) × RunState :=
  createBatch "b" [{ toAddr := "A" }, { toAddr := "B" }, { toAddr := "C" }] initState

/-- Witness for `C3_atomic_short_circuit`: three intents, atomic, the second
receipt reverted — the error names `b-1` and exactly two receipts are
awaited. -/
theorem C3_atomic_short_circuit_witness :
    (executeBatch envC3 "b" batchC3.1.2 { atomic := some true, onProgress := true }
        batchC3.2).1 =
      Except.error ("Batch execution failed: Atomic batch failed: Transaction " ++
        (batchC3.1.2.getD 1 dummyTx).id ++ " reverted") ∧
    waitCalls (executeBatch envC3 "b" batchC3.1.2 { atomic := some true, onProgress := true }
        batchC3.2).2.2 = 1 + 1 :=
  C3_atomic_short_circuit envC3 "b" batchC3.1.2
    { atomic := some true, onProgress := true } batchC3.2 1 rfl (by decide)
    (fun j c => ⟨"h" ++ toString j, rfl⟩)
    (fun j h2 hj => by
      have hj0 : j = 0 := by omega
      subst hj0
      exact ⟨okReceipt 100 2, rfl, rfl⟩)
    (fun h2 => ⟨revReceipt, rfl, rfl⟩)

/-- How one failing attempt of `executeWithRetry` throws: either the broadcast
itself throws, or the broadcast returns a hash and the receipt wait throws
(e.g. a confirmation timeout). -/
inductive AttemptFailure where
  | broadcastThrow (msg : String)
  | receiptThrow (hash : String) (msg : String)

/-- The environment makes the next `plan.length` attempts fail as scripted,
starting at send index `sc` and wait index `wc`: a `broadcastThrow` consumes
one send index; a `receiptThrow` consumes one send index (returning its hash)
and one wait index (throwing there). -/
def FollowsPlan (env : Env) : Nat → Nat → List AttemptFailure → Prop
  | _, _, [] => True
  | sc, wc, AttemptFailure.broadcastThrow msg :: rest =>
      (∀ c, env.sendResult sc c = Except.error msg) ∧
      FollowsPlan env (sc + 1) wc rest
  | sc, wc, AttemptFailure.receiptThrow hash msg :: rest =>
      (∀ c, env.sendResult sc c = Except.ok hash) ∧
      env.receiptResult wc hash = Except.error msg ∧
      FollowsPlan env (sc + 1) (wc + 1) rest

/-- Number of wait indices a failure plan consumes (its receipt-wait throws). -/
def waitThrows : List AttemptFailure → Nat
  | [] => 0
  | AttemptFailure.broadcastThrow _ :: rest => waitThrows rest
  | AttemptFailure.receiptThrow _ _ :: rest => waitThrows rest + 1

theorem retryLoop_all_fail (env : Env) (tx : BatchTransaction) (nonce maxR : Nat) :
    ∀ (plan : List AttemptFailure) (attempt : Nat) (le : Option String) (s : RunState),
    attempt + plan.length = maxR + 1 →
    FollowsPlan env s.sendCount s.waitCount plan →
    (retryLoop env tx nonce maxR plan.length attempt le s).1.status =
      OutcomeStatus.failed ∧
    (retryLoop env tx nonce maxR plan.length attempt le s).1.retries = some maxR ∧
    (sendEvents (retryLoop env tx nonce maxR plan.length attempt le s).2.2).length =
      plan.length ∧
    sleepEvents (retryLoop env tx nonce maxR plan.length attempt le s).2.2 =
      (List.range' attempt (plan.length - 1)).map (fun a => 2 ^ a * 1000) := by
  intro plan
  induction plan with
  | nil =>
      intro attempt le s hrel hplan
      exact ⟨rfl, rfl, rfl, by simp [retryLoop, sleepEvents]⟩
  | cons e rest ih =>
      intro attempt le s hrel hplan
      simp only [List.length_cons] at hrel ⊢
      cases e with
      | broadcastThrow msg =>
          obtain ⟨hmsg, hrest⟩ := hplan
          rw [retryLoop]
          simp only [hmsg]
          rcases Nat.eq_zero_or_pos rest.length with hf | hf
          · obtain rfl : rest = [] := List.length_eq_zero.mp hf
            have hnb : ¬ attempt < maxR := by omega
            rw [if_neg hnb]
            refine ⟨by simp [retryLoop], by simp [retryLoop], ?_, ?_⟩
            · simp [retryLoop, sendEvents]
            · simp [retryLoop, sleepEvents]
          · obtain ⟨g, hg⟩ : ∃ g, rest.length = g + 1 := ⟨rest.length - 1, by omega⟩
            have hb : attempt < maxR := by omega
            rw [if_pos hb]
            obtain ⟨ih1, ih2, ih3, ih4⟩ := ih (attempt + 1) (some msg)
              (RunState.mk s.activeBatch (s.sendCount + 1) s.waitCount s.estimateCount)
              (by omega) hrest
            refine ⟨by simpa using ih1, by simpa using ih2, ?_, ?_⟩
            · simp only [List.singleton_append]
              simp [sendEvents, ih3]
            · rw [hg] at ih4
              simp only [List.singleton_append]
              simp [sleepEvents, ih4, hg, List.range'_succ]
      | receiptThrow hash msg =>
          obtain ⟨hsend, hwait, hrest⟩ := hplan
          rw [retryLoop]
          simp only [hsend, hwait]
          rcases Nat.eq_zero_or_pos rest.length with hf | hf
          · obtain rfl : rest = [] := List.length_eq_zero.mp hf
            have hnb : ¬ attempt < maxR := by omega
            rw [if_neg hnb]
            refine ⟨by simp [retryLoop], by simp [retryLoop], ?_, ?_⟩
            · simp [retryLoop, sendEvents]
            · simp [retryLoop, sleepEvents]
          · obtain ⟨g, hg⟩ : ∃ g, rest.length = g + 1 := ⟨rest.length - 1, by omega⟩
            have hb : attempt < maxR := by omega
            rw [if_pos hb]
            obtain ⟨ih1, ih2, ih3, ih4⟩ := ih (attempt + 1) (some msg)
              (RunState.mk s.activeBatch (s.sendCount + 1) (s.waitCount + 1)
                s.estimateCount)
              (by omega) hrest
            refine ⟨by simpa using ih1, by simpa using ih2, ?_, ?_⟩
            · simp only [List.singleton_append]
              simp [sendEvents, ih3]
            · rw [hg] at ih4
              simp only [List.singleton_append]
              simp [sleepEvents, ih4, hg, List.range'_succ]

theorem retryLoop_plan_then_success (env : Env) (tx : BatchTransaction)
    (nonce maxR : Nat) :
    ∀ (plan : List AttemptFailure) (attempt : Nat) (le : Option String) (s : RunState),
    FollowsPlan env s.sendCount s.waitCount plan →
    (∀ c, ∃ h, env.sendResult (s.sendCount + plan.length) c = Except.ok h) →
    (∀ h, ∃ r, env.receiptResult (s.waitCount + waitThrows plan) h = Except.ok r ∧
        r.status = ReceiptStatus.success) →
    (retryLoop env tx nonce maxR (plan.length + 1) attempt le s).1.status =
      OutcomeStatus.success ∧
    (retryLoop env tx nonce maxR (plan.length + 1) attempt le s).1.retries =
      some (attempt + plan.length) ∧
    (sendEvents (retryLoop env tx nonce maxR (plan.length + 1) attempt le s).2.2).length =
      plan.length + 1 := by
  intro plan
  induction plan with
  | nil =>
      intro attempt le s _hplan hok hrc
      obtain ⟨h, hh⟩ := hok
        (SendCall.mk tx.toAddr tx.value tx.data nonce tx.gasLimit env.address)
      simp only [List.length_nil, Nat.add_zero] at hh
      obtain ⟨r, hr, hrs⟩ := hrc h
      simp only [waitThrows, Nat.add_zero] at hr
      simp only [List.length_nil, retryLoop, hh, hr, hrs]
      exact ⟨by simp, by simp, by simp [sendEvents]⟩
  | cons e rest ih =>
      intro attempt le s hplan hok hrc
      simp only [List.length_cons] at hok ⊢
      cases e with
      | broadcastThrow msg =>
          obtain ⟨hmsg, hrest⟩ := hplan
          rw [retryLoop]
          simp only [hmsg]
          obtain ⟨ih1, ih2, ih3⟩ := ih (attempt + 1) (some msg)
            (RunState.mk s.activeBatch (s.sendCount + 1) s.waitCount s.estimateCount)
            hrest
            (by intro c
                have := hok c
                simpa [Nat.add_assoc, Nat.add_comm 1 rest.length] using this)
            (by intro h2
                have := hrc h2
                simpa [waitThrows] using this)
          refine ⟨by simpa using ih1, ?_, ?_⟩
          · have harith : attempt + (rest.length + 1) = attempt + 1 + rest.length := by
              omega
            rw [harith]
            simpa using ih2
          · simp only [sendEvents, sendEvents_append, sendEvents_if_sleep,
              List.nil_append, List.length_cons]
            simpa using ih3
      | receiptThrow hash msg =>
          obtain ⟨hsend, hwait, hrest⟩ := hplan
          rw [retryLoop]
          simp only [hsend, hwait]
          obtain ⟨ih1, ih2, ih3⟩ := ih (attempt + 1) (some msg)
            (RunState.mk s.activeBatch (s.sendCount + 1) (s.waitCount + 1)
              s.estimateCount)
            hrest
            (by intro c
                have := hok c
                simpa [Nat.add_assoc, Nat.add_comm 1 rest.length] using this)
            (by intro h2
                have := hrc h2
                simpa [waitThrows, Nat.add_assoc, Nat.add_comm 1 (waitThrows rest)]
                  using this)
          refine ⟨by simpa using ih1, ?_, ?_⟩
          · have harith : attempt + (rest.length + 1) = attempt + 1 + rest.length := by
              omega
            rw [harith]
            simpa using ih2
          · simp only [sendEvents, sendEvents_append, sendEvents_if_sleep,
              List.nil_append, List.length_cons]
            simpa using ih3

/-- C5.  Retry policy of `executeWithRetry` with `maxRetries = k`, where a
failing attempt may throw at either step — the broadcast or the receipt wait
(`FollowsPlan` scripts one of the two per attempt).  (1) If the first `k`
attempts fail in any such mix and attempt `k` broadcasts and confirms, the
outcome is success with `retries = k` after exactly `k + 1` broadcast
attempts.  (2) If all `k + 1` attempts fail in any such mix, the outcome is
failed with `retries = k` exactly, there are exactly `k + 1` broadcast
attempts, and the run sleeps `2^attempt · 1000` ms after each failed attempt
except the last (backoffs `2^0, …, 2^(k-1)` seconds, none after attempt `k`). -/
theorem C5_retry_policy (env : Env) (tx : BatchTransaction) (nonce k : Nat)
    (s : RunState) :
    (∀ plan : List AttemptFailure, plan.length = k →
      FollowsPlan env s.sendCount s.waitCount plan →
      (∀ c, ∃ h, env.sendResult (s.sendCount + k) c = Except.ok h) →
      (∀ h, ∃ r, env.receiptResult (s.waitCount + waitThrows plan) h = Except.ok r ∧
          r.status = ReceiptStatus.success) →
      (executeWithRetry env tx nonce k s).1.status = OutcomeStatus.success ∧
      (executeWithRetry env tx nonce k s).1.retries = some k ∧
      (sendEvents (executeWithRetry env tx nonce k s).2.2).length = k + 1) ∧
    (∀ plan : List AttemptFailure, plan.length = k + 1 →
      FollowsPlan env s.sendCount s.waitCount plan →
      (executeWithRetry env tx nonce k s).1.status = OutcomeStatus.failed ∧
      (executeWithRetry env tx nonce k s).1.retries = some k ∧
      (sendEvents (executeWithRetry env tx nonce k s).2.2).length = k + 1 ∧
      sleepEvents (executeWithRetry env tx nonce k s).2.2 =
        (List.range k).map (fun a => 2 ^ a * 1000)) := by
  constructor
  · intro plan hlen hplan hok hrc
    subst hlen
    have hmain := retryLoop_plan_then_success env tx nonce plan.length plan 0 none s
      hplan hok hrc
    simpa [executeWithRetry] using hmain
  · intro plan hlen hplan
    have hmain := retryLoop_all_fail env tx nonce k plan 0 none s (by omega) hplan
    rw [hlen] at hmain
    simpa [executeWithRetry, hlen, List.range_eq_range'] using hmain

/-- Environment for the C5 witness, part 1, scripting a mixed failure plan:
attempt 0's broadcast throws, attempt 1 broadcasts hash `hx` whose receipt
wait throws (timeout), attempt 2 broadcasts and its receipt confirms. -/
def envC5a : Env :=
  { address := "acct", startingNonce := 0,
    sendResult := fun j _ =>
      if j = 0 then Except.error "boom"
      else if j = 1 then Except.ok "hx"
      else Except.ok "h",
    receiptResult := fun j _ =>
      if j = 0 then Except.error "timeout" else Except.ok (okReceipt 100 2),
    estimateGasResult := fun _ => 0, gasPrice := 1 }

/-- Environment for the C5 witness, part 2: every attempt fails — broadcast
throw, then receipt-wait throw, then broadcast throw again. -/
def envC5b : Env :=
  { address := "acct", startingNonce := 0,
    sendResult := fun j _ =>
      if j = 0 then Except.error "boom"
      else if j = 1 then Except.ok "hx"
      else Except.error "boom2",
    receiptResult := fun j _ =>
      if j = 0 then Except.error "timeout" else Except.ok (okReceipt 100 2),
    estimateGasResult := fun _ => 0, gasPrice := 1 }

/-- The intent used by the C5 witness. -/
def txC5 : BatchTransaction :=
  { id := "t", toAddr := "A" }

/-- The mixed failure plan of the C5 witness, part 1: a broadcast throw
followed by a receipt-wait throw. -/
def planC5a : List AttemptFailure :=
  [AttemptFailure.broadcastThrow "boom", AttemptFailure.receiptThrow "hx" "timeout"]

/-- The failure plan of the C5 witness, part 2: all three attempts fail, mixing
both failure kinds. -/
def planC5b : List AttemptFailure :=
  [AttemptFailure.broadcastThrow "boom", AttemptFailure.receiptThrow "hx" "timeout",
   AttemptFailure.broadcastThrow "boom2"]

/-- Witness for `C5_retry_policy` at `maxRetries = 2`: part 1 under `envC5a`
(broadcast throw, receipt-wait throw, then success), part 2 under `envC5b`
(all attempts fail in a mix of both kinds). -/
theorem C5_retry_policy_witness :
    ((executeWithRetry envC5a txC5 7 2 initState).1.status = OutcomeStatus.success ∧
     (executeWithRetry envC5a txC5 7 2 initState).1.retries = some 2 ∧
     (sendEvents (executeWithRetry envC5a txC5 7 2 initState).2.2).length = 2 + 1) ∧
    ((executeWithRetry envC5b txC5 7 2 initState).1.status = OutcomeStatus.failed ∧
     (executeWithRetry envC5b txC5 7 2 initState).1.retries = some 2 ∧
     (sendEvents (executeWithRetry envC5b txC5 7 2 initState).2.2).length = 2 + 1 ∧
     sleepEvents (executeWithRetry envC5b txC5 7 2 initState).2.2 =
       (List.range 2).map (fun a => 2 ^ a * 1000)) :=
  ⟨(C5_retry_policy envC5a txC5 7 2 initState).1 planC5a rfl
      ⟨fun _c => rfl, fun _c => rfl, rfl, trivial⟩
      (fun _c => ⟨"h", rfl⟩)
      (fun _h => ⟨okReceipt 100 2, rfl, rfl⟩),
   (C5_retry_policy envC5b txC5 7 2 initState).2 planC5b rfl
      ⟨fun _c => rfl, fun _c => rfl, rfl, fun _c => rfl, trivial⟩⟩

/-- An event that neither writes the progress record nor notifies. -/
def quietEvent : Event → Bool
  | Event.progressSet _ => false
  | Event.notify _ => false
  | _ => true

theorem runAuto_append (d : BatchProgress → BatchProgress → Bool) (a b : List Event) :
    ∀ st, runAuto d st (a ++ b) =
      (runAuto d st a).bind (fun st2 => runAuto d st2 b) := by
  induction a with
  | nil => intro st; rfl
  | cons e rest ih =>
      intro st
      simp only [List.cons_append, runAuto]
      cases discStep d st e with
      | none => rfl
      | some st2 => simp [ih]

theorem runAuto_quiet (d : BatchProgress → BatchProgress → Bool) (t : List Event) :
    t.all quietEvent = true → ∀ p, runAuto d (p, false) t = some (p, false) := by
  induction t with
  | nil => intro _ p; rfl
  | cons e rest ih =>
      intro h p
      rw [List.all_cons, Bool.and_eq_true] at h
      obtain ⟨he, hrest⟩ := h
      cases e <;> simp [quietEvent] at he <;>
        simp [runAuto, discStep, ih hrest]

theorem quiet_of_no_writes (t : List Event) :
    progressWrites t = [] → notifyEvents t = [] → t.all quietEvent = true := by
  induction t with
  | nil => intro _ _; rfl
  | cons e rest ih =>
      intro h1 h2
      cases e <;> simp only [progressWrites, notifyEvents] at h1 h2 <;>
        first
        | exact absurd h1 (by simp)
        | exact absurd h2 (by simp)
        | (rw [List.all_cons]; simp [quietEvent, ih h1 h2])

theorem auto_update_countFree (u : ProgressUpdate) (s : RunState) (p : BatchProgress)
    (hs : s.activeBatch = some p) (hc : u.completed = none) (hf : u.failed = none)
    (hp : u.pending = none) :
    (updateProgress u s).1.activeBatch = some (applyUpdate p u) ∧
    runAuto changesCounts (p, false) (updateProgress u s).2 =
      some (applyUpdate p u, false) := by
  constructor
  · simp [updateProgress, hs]
  · simp [updateProgress, hs, runAuto, discStep, changesCounts, applyUpdate, hc, hf, hp]

theorem auto_update_counts_notify (cfg : BatchConfig) (u : ProgressUpdate) (s : RunState)
    (p : BatchProgress) (hs : s.activeBatch = some p) (hobs : cfg.onProgress = true)
    (hch : changesCounts p (applyUpdate p u) = true) :
    (notifyIf cfg (updateProgress u s).1).1.activeBatch = some (applyUpdate p u) ∧
    runAuto changesCounts (p, false)
      ((updateProgress u s).2 ++ (notifyIf cfg (updateProgress u s).1).2) =
      some (applyUpdate p u, false) := by
  constructor
  · simp [notifyIf_state, updateProgress, hs]
  · simp [updateProgress, hs, notifyIf, hobs, runAuto, discStep, hch]

theorem auto_if_sleep (P : Prop) [Decidable P] (m : Nat) (p : BatchProgress) :
    runAuto changesCounts (p, false) (if P then [Event.sleep m] else []) =
      some (p, false) := by
  split <;> rfl

theorem executeWithRetry_quiet (env : Env) (tx : BatchTransaction) (nonce k : Nat)
    (s : RunState) :
    ((executeWithRetry env tx nonce k s).2.2).all quietEvent = true :=
  quiet_of_no_writes _ (retryLoop_progressWrites env tx nonce k (k + 1) 0 none s)
    (retryLoop_notifyEvents env tx nonce k (k + 1) 0 none s)

theorem executeWithRetry_activeBatch (env : Env) (tx : BatchTransaction) (nonce k : Nat)
    (s : RunState) :
    (executeWithRetry env tx nonce k s).2.1.activeBatch = s.activeBatch :=
  retryLoop_activeBatch env tx nonce k (k + 1) 0 none s

theorem sequentialLoop_auto (env : Env) (cfg : BatchConfig) (n nonce : Nat)
    (hobs : cfg.onProgress = true) :
    ∀ (txs : List BatchTransaction) (i : Nat) (results : List TxOutcome)
      (gas cost : Int) (s : RunState) (p : BatchProgress),
    s.activeBatch = some p → p.completed ≤ i →
    ∃ p2, (sequentialLoop env cfg n nonce txs i results gas cost s).2.1.activeBatch =
        some p2 ∧
      p2.completed ≤ i + txs.length ∧
      runAuto changesCounts (p, false)
        (sequentialLoop env cfg n nonce txs i results gas cost s).2.2 =
        some (p2, false) := by
  intro txs
  induction txs with
  | nil =>
      intro i results gas cost s p hs hc
      exact ⟨p, by simpa [sequentialLoop] using hs, by simpa using hc, rfl⟩
  | cons tx rest ih =>
      intro i results gas cost s p hs hc
      simp only [sequentialLoop]
      generalize hrt : executeWithRetry env tx (nonce + i) (cfg.maxRetries.getD 0)
          (updateProgress (ProgressUpdate.mk none none none none
            (some (some tx.id)) none) s).1 = rt
      obtain ⟨hup_a, hup_r⟩ := auto_update_countFree
        (ProgressUpdate.mk none none none none (some (some tx.id)) none) s p hs rfl rfl rfl
      have hp1c : (applyUpdate p (ProgressUpdate.mk none none none none
          (some (some tx.id)) none)).completed = p.completed := rfl
      have hrt_quiet : (rt.2.2).all quietEvent = true := by
        rw [← hrt]; exact executeWithRetry_quiet env tx _ _ _
      have hrt_ab : rt.2.1.activeBatch = some (applyUpdate p
          (ProgressUpdate.mk none none none none (some (some tx.id)) none)) := by
        rw [← hrt, executeWithRetry_activeBatch]
        exact hup_a
      obtain ⟨result, s2, tr⟩ := rt
      simp only at hrt_quiet hrt_ab
      set p1 := applyUpdate p
        (ProgressUpdate.mk none none none none (some (some tx.id)) none) with hp1
      cases hst : result.status <;> cases hrc : result.receipt <;> simp only [hst, hrc]
      on_goal 2 =>
        have hne : p1.completed ≠ i + 1 := by
          rw [hp1c]
          omega
        have hch : changesCounts p1 (applyUpdate p1
            (ProgressUpdate.mk none (some (i + 1)) none (some (n - i - 1)) none none)) =
            true := by
          simp [changesCounts, applyUpdate, hne]
        obtain ⟨hn_a, hn_r⟩ := auto_update_counts_notify cfg
          (ProgressUpdate.mk none (some (i + 1)) none (some (n - i - 1)) none none)
          s2 p1 hrt_ab hobs hch
        obtain ⟨p2, hf_a, hf_c, hf_r⟩ := ih (i + 1) (results ++ [result]) _ _ _
          (applyUpdate p1 (ProgressUpdate.mk none (some (i + 1)) none
            (some (n - i - 1)) none none)) hn_a (by simp [applyUpdate])
        refine ⟨p2, hf_a, by simp only [List.length_cons]; omega, ?_⟩
        rw [runAuto_append] at hn_r
        simp only [runAuto_append]
        rw [auto_if_sleep]
        simp only [Option.some_bind]
        rw [hup_r]
        simp only [Option.some_bind]
        rw [runAuto_quiet changesCounts tr hrt_quiet]
        simp only [Option.some_bind]
        rw [hn_r]
        simp only [Option.some_bind]
        exact hf_r
      all_goals
        simp only [hrt_ab, Option.map_some', Option.getD_some]
        have hch : changesCounts p1 (applyUpdate p1
            (ProgressUpdate.mk none none (some (p1.failed + 1))
              (some (n - i - 1)) none none)) = true := by
          simp [changesCounts, applyUpdate]
        obtain ⟨hn_a, hn_r⟩ := auto_update_counts_notify cfg
          (ProgressUpdate.mk none none (some (p1.failed + 1)) (some (n - i - 1)) none none)
          s2 p1 hrt_ab hobs hch
        obtain ⟨p2, hf_a, hf_c, hf_r⟩ := ih (i + 1) (results ++ [result]) _ _ _
          (applyUpdate p1 (ProgressUpdate.mk none none (some (p1.failed + 1))
            (some (n - i - 1)) none none)) hn_a
          (by simp only [applyUpdate]
              simp
              rw [hp1c]
              omega)
        refine ⟨p2, hf_a, by simp only [List.length_cons]; omega, ?_⟩
        rw [runAuto_append] at hn_r
        simp only [runAuto_append]
        rw [auto_if_sleep]
        simp only [Option.some_bind]
        rw [hup_r]
        simp only [Option.some_bind]
        rw [runAuto_quiet changesCounts tr hrt_quiet]
        simp only [Option.some_bind]
        rw [hn_r]
        simp only [Option.some_bind]
        exact hf_r

theorem auto_nonceEvent (p : BatchProgress) (m : Nat) :
    runAuto changesCounts (p, false) [Event.getTransactionCount m] = some (p, false) := rfl

theorem broadcastPhase_auto (env : Env) (startNonce : Nat) :
    ∀ (txs : List BatchTransaction) (i : Nat) (s : RunState) (p : BatchProgress),
    s.activeBatch = some p →
    ∃ p2, (broadcastPhase env startNonce txs i s).2.1.activeBatch = some p2 ∧
      p2.completed = p.completed ∧
      runAuto changesCounts (p, false) (broadcastPhase env startNonce txs i s).2.2 =
        some (p2, false) := by
  intro txs
  induction txs with
  | nil =>
      intro i s p hs
      exact ⟨p, by simpa [broadcastPhase] using hs, rfl, rfl⟩
  | cons tx rest ih =>
      intro i s p hs
      simp only [broadcastPhase]
      obtain ⟨hu_a, hu_r⟩ := auto_update_countFree
        (ProgressUpdate.mk none none none none (some (some tx.id)) none) s p hs rfl rfl rfl
      cases hsr : env.sendResult (updateProgress (ProgressUpdate.mk none none none none
          (some (some tx.id)) none) s).1.sendCount
          (SendCall.mk tx.toAddr tx.value tx.data (startNonce + i) tx.gasLimit env.address) with
      | error msg =>
          simp only [hsr]
          refine ⟨applyUpdate p (ProgressUpdate.mk none none none none
            (some (some tx.id)) none), by simpa using hu_a, rfl, ?_⟩
          simp only [runAuto_append]
          rw [hu_r]
          simp only [Option.some_bind]
          rfl
      | ok hash =>
          simp only [hsr]
          obtain ⟨p2, hr_a, hr_c, hr_r⟩ := ih (i + 1)
            (RunState.mk (updateProgress (ProgressUpdate.mk none none none none
                (some (some tx.id)) none) s).1.activeBatch
              ((updateProgress (ProgressUpdate.mk none none none none
                (some (some tx.id)) none) s).1.sendCount + 1)
              (updateProgress (ProgressUpdate.mk none none none none
                (some (some tx.id)) none) s).1.waitCount
              (updateProgress (ProgressUpdate.mk none none none none
                (some (some tx.id)) none) s).1.estimateCount)
            (applyUpdate p (ProgressUpdate.mk none none none none (some (some tx.id)) none))
            (by simpa using hu_a)
          refine ⟨p2, by simpa using hr_a, by simpa using hr_c, ?_⟩
          simp only [runAuto_append]
          rw [hu_r]
          simp only [Option.some_bind]
          rw [show runAuto changesCounts (applyUpdate p (ProgressUpdate.mk none none none none
            (some (some tx.id)) none), false)
            [Event.sendTransaction (SendCall.mk tx.toAddr tx.value tx.data (startNonce + i)
              tx.gasLimit env.address) (Except.ok hash)] =
            some (applyUpdate p (ProgressUpdate.mk none none none none
              (some (some tx.id)) none), false) from rfl]
          simp only [Option.some_bind]
          exact hr_r

theorem receiptPhase_auto (env : Env) (cfg : BatchConfig) (n : Nat)
    (hobs : cfg.onProgress = true) :
    ∀ (pairs : List (BatchTransaction × String)) (i : Nat) (results : List TxOutcome)
      (gas cost : Int) (s : RunState) (p : BatchProgress),
    s.activeBatch = some p → p.completed ≤ i →
    ∃ p2, (receiptPhase env cfg n pairs i results gas cost s).2.1.activeBatch = some p2 ∧
      runAuto changesCounts (p, false)
        (receiptPhase env cfg n pairs i results gas cost s).2.2 = some (p2, false) := by
  intro pairs
  induction pairs with
  | nil =>
      intro i results gas cost s p hs hc
      exact ⟨p, by simpa [receiptPhase] using hs, rfl⟩
  | cons pr rest ih =>
      intro i results gas cost s p hs hc
      obtain ⟨tx, hash⟩ := pr
      cases hw : env.receiptResult s.waitCount hash with
      | error msg =>
          simp only [receiptPhase, hw]
          exact ⟨p, by simpa using hs, rfl⟩
      | ok receipt =>
          simp only [receiptPhase, hw]
          by_cases hrev : receipt.status = ReceiptStatus.reverted
          · rw [if_pos hrev]
            exact ⟨p, by simpa using hs, rfl⟩
          · rw [if_neg hrev]
            have hne : p.completed ≠ i + 1 := by omega
            have hch : changesCounts p (applyUpdate p
                (ProgressUpdate.mk none (some (i + 1)) none (some (n - i - 1)) none none)) =
                true := by
              simp [changesCounts, applyUpdate, hne]
            obtain ⟨hn_a, hn_r⟩ := auto_update_counts_notify cfg
              (ProgressUpdate.mk none (some (i + 1)) none (some (n - i - 1)) none none)
              (RunState.mk s.activeBatch s.sendCount (s.waitCount + 1) s.estimateCount)
              p hs hobs hch
            obtain ⟨p2, hf_a, hf_r⟩ := ih (i + 1)
              (results ++ [TxOutcome.mk tx.id OutcomeStatus.success
                (some (atomicReceipt receipt)) none none])
              (gas + receipt.gasUsed) (cost + receipt.gasUsed * receipt.effectiveGasPrice)
              ((notifyIf cfg (updateProgress
                (ProgressUpdate.mk none (some (i + 1)) none (some (n - i - 1)) none none)
                (RunState.mk s.activeBatch s.sendCount (s.waitCount + 1)
                  s.estimateCount)).1).1)
              (applyUpdate p
                (ProgressUpdate.mk none (some (i + 1)) none (some (n - i - 1)) none none))
              hn_a (by simp [applyUpdate])
            refine ⟨p2, hf_a, ?_⟩
            rw [runAuto_append] at hn_r
            simp only [runAuto_append]
            rw [show runAuto changesCounts (p, false)
              [Event.waitForReceipt hash (Except.ok receipt)] = some (p, false) from rfl]
            simp only [Option.some_bind]
            rw [hn_r]
            simp only [Option.some_bind]
            exact hf_r

theorem executeAtomic_auto (env : Env) (txs : List BatchTransaction) (startNonce : Nat)
    (cfg : BatchConfig) (s : RunState) (p : BatchProgress)
    (hobs : cfg.onProgress = true) (hs : s.activeBatch = some p) (hc : p.completed = 0) :
    ∃ p2, (executeAtomic env txs startNonce cfg s).2.1.activeBatch = some p2 ∧
      runAuto changesCounts (p, false) (executeAtomic env txs startNonce cfg s).2.2 =
        some (p2, false) := by
  obtain ⟨p1, hb_a, hb_c, hb_r⟩ := broadcastPhase_auto env startNonce txs 0 s p hs
  simp only [executeAtomic]
  split
  · exact ⟨p1, hb_a, hb_r⟩
  · rename_i hashes heq
    obtain ⟨p2, hr_a, hr_r⟩ := receiptPhase_auto env cfg txs.length hobs (txs.zip hashes)
      0 [] 0 0 (broadcastPhase env startNonce txs 0 s).2.1 p1 hb_a (by omega)
    refine ⟨p2, hr_a, ?_⟩
    rw [runAuto_append, hb_r]
    simp only [Option.some_bind]
    exact hr_r

/-- C9 amended.  With an observer configured, every mutation that changes
`completed`, `failed` or `pending` is followed immediately by exactly one
observer invocation carrying the new record, there are no other observer
invocations, and none is outstanding when `executeBatch` returns — in either
mode.  (Mutations changing only `status` or `currentTransaction` — the
`executing` transition and the terminal transition — are NOT notified, which
is the correction to the claim.) -/
theorem C9_counts_mutations_notified (env : Env) (batchId : String) (txs : List BatchTransaction)
    (cfg : BatchConfig) (s : RunState) (p : BatchProgress)
    (hobs : cfg.onProgress = true) (hs : s.activeBatch = some p) (hc : p.completed = 0) :
    disciplined changesCounts p (executeBatch env batchId txs cfg s).2.2 = true := by
  obtain ⟨hu0_a, hu0_r⟩ := auto_update_countFree
    (ProgressUpdate.mk none none none none
      (some (txs.head?.map BatchTransaction.id)) (some BatchStatus.executing)) s p hs
    rfl rfl rfl
  have hp1c : (applyUpdate p (ProgressUpdate.mk none none none none
      (some (txs.head?.map BatchTransaction.id)) (some BatchStatus.executing))).completed
      = 0 := by
    simpa [applyUpdate] using hc
  by_cases hat : cfg.atomic.getD false
  · obtain ⟨p2, hA_a, hA_r⟩ := executeAtomic_auto env txs env.startingNonce cfg _ _
      hobs hu0_a hp1c
    simp only [executeBatch, hat, if_true]
    split
    · rename_i r g c heq
      obtain ⟨hf_a, hf_r⟩ := auto_update_countFree
        (ProgressUpdate.mk none none none none none
          (some (if (r.all fun o => decide (o.status = OutcomeStatus.success)) = true
                 then BatchStatus.completed else BatchStatus.failed)))
        _ p2 hA_a rfl rfl rfl
      simp only [disciplined]
      simp only [runAuto_append]
      rw [hu0_r]
      simp only [Option.some_bind]
      rw [auto_nonceEvent]
      simp only [Option.some_bind]
      rw [hA_r]
      simp only [Option.some_bind]
      rw [hf_r]
    · rename_i msg heq
      obtain ⟨hf_a, hf_r⟩ := auto_update_countFree
        (ProgressUpdate.mk none none none none none (some BatchStatus.failed))
        _ p2 hA_a rfl rfl rfl
      simp only [disciplined]
      simp only [runAuto_append]
      rw [hu0_r]
      simp only [Option.some_bind]
      rw [auto_nonceEvent]
      simp only [Option.some_bind]
      rw [hA_r]
      simp only [Option.some_bind]
      rw [hf_r]
  · obtain ⟨p2, hS_a, hS_c, hS_r⟩ := sequentialLoop_auto env cfg txs.length
      env.startingNonce hobs txs 0 [] 0 0 _ _ hu0_a (by omega)
    simp only [executeBatch, hat, Bool.false_eq_true, if_false]
    obtain ⟨hf_a, hf_r⟩ := auto_update_countFree
      (ProgressUpdate.mk none none none none none
        (some (if ((sequentialLoop env cfg txs.length env.startingNonce txs 0 [] 0 0
            (updateProgress (ProgressUpdate.mk none none none none
              (some (txs.head?.map BatchTransaction.id))
              (some BatchStatus.executing)) s).1).1.1.all
            fun o => decide (o.status = OutcomeStatus.success)) = true
          then BatchStatus.completed else BatchStatus.failed)))
      _ p2 hS_a rfl rfl rfl
    simp only [disciplined, runAuto_append]
    rw [hu0_r]
    simp only [Option.some_bind]
    rw [auto_nonceEvent]
    simp only [Option.some_bind]
    rw [hS_r]
    simp only [Option.some_bind]
    rw [hf_r]

/-- The one-intent batch of the C9 scenarios. -/
def batchC9 : (String × List BatchTransaction) × RunState :=
  createBatch "b" [{ toAddr := "A" }] initState

/-- Witness for `C9_counts_mutations_notified` at the concrete one-intent run
of `envC9` (the same run on which the unamended claim fails). -/
theorem C9_counts_mutations_notified_witness :
    disciplined changesCounts p0C9
      (executeBatch envC9 "b" batchC9.1.2 { onProgress := true } batchC9.2).2.2 = true :=
  C9_counts_mutations_notified envC9 "b" batchC9.1.2 { onProgress := true }
    batchC9.2 p0C9 rfl rfl rfl
